import Mathlib

/-
  Verification of the GPT-Scan-Strava repository core:
  the image tiling engine (ImageProcessor) and the resilient
  extraction client (GPTVisionLoader).

  The development shallowly embeds the TypeScript source:
  pure layout arithmetic becomes Lean functions on Nat,
  the retry loop becomes a recursion indexed by the retry counter,
  the file system and the remote API are abstracted as explicit inputs.
-/

namespace GPTScan

/-! ## A model of JSON values and of the subset of JSON.parse the loader relies on.

JSON.parse is a JavaScript library routine; we model the fragment exercised by
the repository: null, booleans, integer numbers, strings with simple escapes,
arrays and objects.  Fractional and exponent number forms and unicode escapes
are outside the modelled fragment and are treated as parse failures. -/

inductive Json where
  | jnull : Json
  | jbool (b : Bool) : Json
  | jnum (n : Int) : Json
  | jstr (s : String) : Json
  | jarr (elems : List Json) : Json
  | jobj (fields : List (String × Json)) : Json

/-- Whitespace characters recognised by the model (the ASCII core of both
the \s regex class and of JSON whitespace). -/
def isWsChar (c : Char) : Bool :=
  c = ' ' || c = '\t' || c = '\n' || c = '\r'

/-- Drop leading whitespace characters. -/
def skipWs : List Char → List Char
  | [] => []
  | c :: cs => if isWsChar c then skipWs cs else c :: cs

/-- Left and right trim, the model of the JavaScript String.trim. -/
def trimChars (cs : List Char) : List Char :=
  ((skipWs ((skipWs cs.reverse).reverse)))

/-- Match a literal character pattern at the front, returning the remainder. -/
def matchChars : List Char → List Char → Option (List Char)
  | [], cs => some cs
  | _ :: _, [] => none
  | p :: ps, c :: cs => if c = p then matchChars ps cs else none

/-- The opening brace character, written via its code point. -/
def lcur : Char := Char.ofNat 123

/-- The closing brace character, written via its code point. -/
def rcur : Char := Char.ofNat 125

/-- The double quote character. -/
def dq : Char := Char.ofNat 34

/-- The backslash character. -/
def bsl : Char := Char.ofNat 92

def isDigitChar (c : Char) : Bool := 48 ≤ c.toNat && c.toNat ≤ 57

def digitVal (c : Char) : Nat := c.toNat - 48

/-- Parse a run of decimal digits, accumulating the value. -/
def parseDigits : List Char → Nat → Nat × List Char
  | [], acc => (acc, [])
  | c :: cs, acc =>
    if isDigitChar c then parseDigits cs (acc * 10 + digitVal c)
    else (acc, c :: cs)

/-- JSON string escape characters of the modelled fragment. -/
def escChar (c : Char) : Option Char :=
  if c = dq then some dq
  else if c = bsl then some bsl
  else if c = '/' then some '/'
  else if c = 'n' then some '\n'
  else if c = 't' then some '\t'
  else if c = 'r' then some '\r'
  else if c = 'b' then some (Char.ofNat 8)
  else if c = 'f' then some (Char.ofNat 12)
  else none

/-- Parse the body of a JSON string literal after the opening quote. -/
def parseStrChars : List Char → Option (List Char × List Char)
  | [] => none
  | c :: cs =>
    if c = dq then some ([], cs)
    else if c = bsl then
      match cs with
      | [] => none
      | e :: cs2 =>
        match escChar e with
        | some ec => (parseStrChars cs2).map (fun p => (ec :: p.1, p.2))
        | none => none
    else (parseStrChars cs).map (fun p => (c :: p.1, p.2))

/-- Whether a char list starts with a digit. -/
def headIsDigit : List Char → Bool
  | [] => false
  | d :: _ => isDigitChar d

/-- Parse an integer JSON number (optional minus, digits, no leading zeros,
no fraction or exponent in the modelled fragment). -/
def parseNum (cs : List Char) : Option (Json × List Char) :=
  match cs with
  | [] => none
  | c :: rest =>
    if c = '-' then
      match rest with
      | [] => none
      | d :: rest2 =>
        if isDigitChar d then
          let p := parseDigits rest 0
          if d = '0' && headIsDigit rest2 then none
          else match p.2 with
            | e :: _ => if e = '.' || e = 'e' || e = 'E' then none else some (Json.jnum (-(p.1 : Int)), p.2)
            | [] => some (Json.jnum (-(p.1 : Int)), p.2)
        else none
    else if isDigitChar c then
      let p := parseDigits (c :: rest) 0
      if c = '0' && headIsDigit rest then none
      else match p.2 with
        | e :: _ => if e = '.' || e = 'e' || e = 'E' then none else some (Json.jnum (p.1 : Int), p.2)
        | [] => some (Json.jnum (p.1 : Int), p.2)
    else none

mutual

/-- Parse one JSON value; fuel bounds the recursion depth (one unit of fuel is
spent per nested construct, and every construct consumes at least one char, so
input length plus one is always enough fuel). -/
def parseValue : Nat → List Char → Option (Json × List Char)
  | 0, _ => none
  | Nat.succ fuel, cs =>
    let cs := skipWs cs
    match matchChars "null".data cs with
    | some rest => some (Json.jnull, rest)
    | none =>
    match matchChars "true".data cs with
    | some rest => some (Json.jbool true, rest)
    | none =>
    match matchChars "false".data cs with
    | some rest => some (Json.jbool false, rest)
    | none =>
    match cs with
    | [] => none
    | c :: rest =>
      if c = dq then
        (parseStrChars rest).map (fun p => (Json.jstr (String.mk p.1), p.2))
      else if c = lcur then
        let cs2 := skipWs rest
        match cs2 with
        | [] => none
        | c2 :: rest2 =>
          if c2 = rcur then some (Json.jobj [], rest2)
          else
            match parseMembers fuel cs2 with
            | some p => some (Json.jobj p.1, p.2)
            | none => none
      else if c = '[' then
        let cs2 := skipWs rest
        match cs2 with
        | [] => none
        | c2 :: rest2 =>
          if c2 = ']' then some (Json.jarr [], rest2)
          else
            match parseElems fuel cs2 with
            | some p => some (Json.jarr p.1, p.2)
            | none => none
      else parseNum (c :: rest)

/-- Parse a nonempty comma separated member list followed by a closing brace. -/
def parseMembers : Nat → List Char → Option (List (String × Json) × List Char)
  | 0, _ => none
  | Nat.succ fuel, cs =>
    let cs := skipWs cs
    match cs with
    | [] => none
    | c :: rest =>
      if c = dq then
        match parseStrChars rest with
        | none => none
        | some kp =>
          match skipWs kp.2 with
          | [] => none
          | c2 :: rest2 =>
            if c2 = ':' then
              match parseValue fuel rest2 with
              | none => none
              | some vp =>
                match skipWs vp.2 with
                | [] => none
                | c3 :: rest3 =>
                  if c3 = ',' then
                    match parseMembers fuel rest3 with
                    | none => none
                    | some mp => some ((String.mk kp.1, vp.1) :: mp.1, mp.2)
                  else if c3 = rcur then some ([(String.mk kp.1, vp.1)], rest3)
                  else none
            else none
      else none

/-- Parse a nonempty comma separated element list followed by a closing bracket. -/
def parseElems : Nat → List Char → Option (List Json × List Char)
  | 0, _ => none
  | Nat.succ fuel, cs =>
    match parseValue fuel cs with
    | none => none
    | some vp =>
      match skipWs vp.2 with
      | [] => none
      | c :: rest =>
        if c = ',' then
          match parseElems fuel rest with
          | none => none
          | some ep => some (vp.1 :: ep.1, ep.2)
        else if c = ']' then some ([vp.1], rest)
        else none

end

/-- The model of JSON.parse: parse one value and require only trailing
whitespace after it. -/
def jsonParse (s : String) : Option Json :=
  match parseValue (s.data.length + 1) s.data with
  | none => none
  | some p => if skipWs p.2 = [] then some p.1 else none

/-! ## Markdown fence extraction and content normalization
     (GPTVisionLoader.analyzeImage, success path). -/

/-- Find the first occurrence of a pattern, returning the text before it and
the remainder after it. -/
def findSub (pat : List Char) : List Char → Option (List Char × List Char)
  | [] => match matchChars pat [] with
          | some rest => some ([], rest)
          | none => none
  | c :: cs =>
    match matchChars pat (c :: cs) with
    | some rest => some ([], rest)
    | none => (findSub pat cs).map (fun p => (c :: p.1, p.2))

/-- The three backtick fence delimiter. -/
def fenceChars : List Char := "```".data

/-- Capture of the regex matching a fenced code block with an optional json
language tag: the text between the first two fences, with a leading json tag
consumed.  Mirrors content.match of the fence pattern in analyzeImage. -/
def fenceCaptureChars (cs : List Char) : Option (List Char) :=
  match findSub fenceChars cs with
  | none => none
  | some op =>
    match findSub fenceChars op.2 with
    | none => none
    | some bp =>
      match matchChars "json".data bp.1 with
      | some body => some body
      | none => some bp.1

/-- Match a literal pattern case insensitively at the front. -/
def matchCI : List Char → List Char → Option (List Char)
  | [], cs => some cs
  | _ :: _, [] => none
  | p :: ps, c :: cs => if c.toLower = p.toLower then matchCI ps cs else none

/-- Capture of the Parsed Result regex alternation in analyzeImage: either the
fenced group or the catch all group. -/
inductive PRCapture where
  | fencedGroup (body : List Char) : PRCapture
  | restGroup (body : List Char) : PRCapture

/-- The alternation after the Parsed Result marker: a fenced block right at
this position if one is closed, otherwise the whole remaining text. -/
def prAlternation (cs : List Char) : PRCapture :=
  match matchChars fenceChars cs with
  | none => PRCapture.restGroup cs
  | some _ =>
    match fenceCaptureChars cs with
    | some body => PRCapture.fencedGroup body
    | none => PRCapture.restGroup cs

/-- Try to match the Parsed Result pattern at this position: the check mark,
optional whitespace, the words Parsed and Result with a colon (case
insensitive), optional whitespace, then the alternation. -/
def prTryAt : List Char → Option PRCapture
  | [] => none
  | c :: rest =>
    if c = '✅' then
      match matchCI "parsed".data (skipWs rest) with
      | none => none
      | some cs1 =>
        match matchCI "result:".data (skipWs cs1) with
        | none => none
        | some cs2 => some (prAlternation (skipWs cs2))
    else none

/-- Scan for the first position where the Parsed Result pattern matches. -/
def prScan : List Char → Option PRCapture
  | [] => none
  | c :: cs =>
    match prTryAt (c :: cs) with
    | some r => some r
    | none => prScan cs

/-- The extracted json text of the Parsed Result branch.  The source reads
group1 or else group2; when the fenced group matched but is empty, the
JavaScript expression evaluates to undefined and calling trim on it throws,
which the enclosing catch turns into the raw content fallback; that thrown
path is modelled as none. -/
def prExtracted : PRCapture → Option (List Char)
  | PRCapture.fencedGroup body => if body.isEmpty then none else some (trimChars body)
  | PRCapture.restGroup body => some (trimChars body)

/-- The value analyzeImage yields on a successful response. -/
inductive NormResult where
  | parsedJson (j : Json) : NormResult
  | rawText (s : String) : NormResult
  | nullValue : NormResult

/-- Chars starting with an opening brace and ending with a closing brace. -/
def braceWrapped (cs : List Char) : Bool :=
  match cs with
  | [] => false
  | c :: rest =>
    c = lcur && (match (c :: rest).getLast? with
                 | some l => l = rcur
                 | none => false)

/-- Content normalization of analyzeImage: optional fence extraction, the bare
JSON object fast path, the Parsed Result heuristic, and the final fallback;
every JSON parse failure is caught and yields the raw content unchanged. -/
def normalizeContent (content : Option String) : NormResult :=
  match content with
  | none => NormResult.nullValue
  | some c =>
    if c = "" then NormResult.nullValue
    else
      let jsonString : List Char :=
        match fenceCaptureChars c.data with
        | some body => trimChars body
        | none => c.data
      if braceWrapped (trimChars jsonString) then
        match jsonParse (String.mk jsonString) with
        | some j => NormResult.parsedJson j
        | none => NormResult.rawText c
      else
        match prScan c.data with
        | some cap =>
          match prExtracted cap with
          | some ex =>
            match jsonParse (String.mk ex) with
            | some j => NormResult.parsedJson j
            | none => NormResult.rawText c
          | none => NormResult.rawText c
        | none =>
          match jsonParse (String.mk jsonString) with
          | some j => NormResult.parsedJson j
          | none => NormResult.rawText c

/-! ## GPTVisionLoader: the retry loop of analyzeImage and the batch helper. -/

/-- Loader configuration (constructor defaults: maxRetries 3,
initialRetryDelay 1000). -/
structure LoaderConfig where
  maxRetries : Nat
  initialRetryDelay : Nat

/-- The error value caught by the loop body, with the fields the handler
inspects: error.error.type, error.message, error.status, error.name. -/
structure ApiError where
  errorType : Option String
  message : Option String
  status : Option Nat
  name : String

/-- Outcome of one attempt of the loop body (file read plus remote call):
a response content (possibly absent) or a thrown error. -/
inductive AttemptOutcome where
  | ok (content : Option String) : AttemptOutcome
  | err (e : ApiError) : AttemptOutcome

/-- Substring test, used for the message.includes quota check. -/
def containsSub (pat : List Char) (cs : List Char) : Bool :=
  (findSub pat cs).isSome

/-- The quota classification of the catch block: error.error.type equals
insufficient quota, or the message mentions quota. -/
def isQuotaError (e : ApiError) : Bool :=
  e.errorType = some "insufficient_quota" ||
    (match e.message with
     | some m => containsSub "quota".data m.data
     | none => false)

/-- The transient status classification: 429, 500 or 503. -/
def isRetryableStatus (e : ApiError) : Bool :=
  e.status = some 429 || e.status = some 500 || e.status = some 503

/-- The fixed message of the quota error raised by analyzeImage. -/
def quotaExceededMessage : String :=
  "OpenAI API quota exceeded. Please check your billing details at https://platform.openai.com/account/billing"

/-- How a single analyzeImage call ends: a returned value, the newly
constructed quota error, or the original error rethrown. -/
inductive CallOutcome where
  | ret (v : NormResult) : CallOutcome
  | thrownNew (name : String) (msg : String) : CallOutcome
  | rethrown (e : ApiError) : CallOutcome

/-- The body of the while loop of analyzeImage, recursing on a budget that
bounds the remaining retries.  The loop retries only while the retry counter
is below maxRetries, so the budget maxRetries minus retries never runs out;
the budget zero fallthrough inside the retry branch is unreachable (this is
proved once and for all by analyzeLoop_unfold below, which shows the loop
satisfies its budget free unfolding equation). -/
def analyzeLoopAux (cfg : LoaderConfig) (attempts : Nat → AttemptOutcome) :
    Nat → Nat → List Nat × CallOutcome
  | retries, budget =>
    match attempts retries with
    | AttemptOutcome.ok content => ([], CallOutcome.ret (normalizeContent content))
    | AttemptOutcome.err e =>
      if isQuotaError e then
        ([], CallOutcome.thrownNew "QuotaExceededError" quotaExceededMessage)
      else if isRetryableStatus e = true ∧ retries < cfg.maxRetries then
        match budget with
        | 0 => ([], CallOutcome.rethrown e)
        | Nat.succ b =>
          let delay := cfg.initialRetryDelay * 2 ^ ((retries + 1) - 1)
          let rest := analyzeLoopAux cfg attempts (retries + 1) b
          (delay :: rest.1, rest.2)
      else
        ([], CallOutcome.rethrown e)

/-- The while loop of analyzeImage from a given retry count: attempts gives
the outcome of the body at each retry count; the result collects the backoff
delays issued (in order) and the final outcome. -/
def analyzeLoop (cfg : LoaderConfig) (attempts : Nat → AttemptOutcome) (retries : Nat) :
    List Nat × CallOutcome :=
  analyzeLoopAux cfg attempts retries (cfg.maxRetries - retries)

/-- analyzeImage: run the loop with the retry counter starting at zero. -/
def analyzeImage (cfg : LoaderConfig) (attempts : Nat → AttemptOutcome) :
    List Nat × CallOutcome :=
  analyzeLoop cfg attempts 0

/-- One entry of the analyzeMultipleImages result list. -/
structure BatchEntry where
  path : String
  data : Option NormResult
  error : Option String

/-- The JavaScript expression error.message or else the unknown error text
(an absent or empty message is falsy). -/
def errorMessageOrDefault (m : Option String) : String :=
  match m with
  | some s => if s = "" then "Unknown error occurred" else s
  | none => "Unknown error occurred"

/-- The message carried by a thrown call outcome, as read by the batch loop. -/
def thrownMessage : CallOutcome → Option String
  | CallOutcome.ret _ => none
  | CallOutcome.thrownNew _ msg => some (errorMessageOrDefault (some msg))
  | CallOutcome.rethrown e => some (errorMessageOrDefault e.message)

/-- analyzeMultipleImages: sequential loop over the paths, pushing a data
entry on success and an error entry on a thrown failure, never aborting. -/
def analyzeMultipleImages (cfg : LoaderConfig)
    (attemptsFor : String → Nat → AttemptOutcome) (imagePaths : List String) :
    List BatchEntry :=
  imagePaths.map (fun p =>
    match (analyzeImage cfg (attemptsFor p)).2 with
    | CallOutcome.ret v => { path := p, data := some v, error := none }
    | CallOutcome.thrownNew _ msg =>
      { path := p, data := none, error := some (errorMessageOrDefault (some msg)) }
    | CallOutcome.rethrown e =>
      { path := p, data := none, error := some (errorMessageOrDefault e.message) })

/-! ### Concrete scenario data used by the test properties of the claims. -/

/-- The constructor default configuration: three retries, initial delay 1000. -/
def defaultLoaderConfig : LoaderConfig := { maxRetries := 3, initialRetryDelay := 1000 }

/-- A transient server error: status 503, no quota signal. -/
def retryDemoError : ApiError :=
  { errorType := none, message := some "server unavailable", status := some 503, name := "Error" }

/-- A remote call that fails with status 503 twice and then succeeds. -/
def retryDemoAttempts : Nat → AttemptOutcome :=
  fun n => if n < 2 then AttemptOutcome.err retryDemoError else AttemptOutcome.ok (some "done")

/-- A quota exhaustion error that also carries a retryable status. -/
def quotaRetryableError : ApiError :=
  { errorType := some "insufficient_quota", message := some "You exceeded your current quota",
    status := some 503, name := "Error" }

/-- A remote call that always signals quota exhaustion. -/
def quotaAttempts : Nat → AttemptOutcome :=
  fun _ => AttemptOutcome.err quotaRetryableError

/-- A terminal, non retryable, non quota error. -/
def terminalDemoError : ApiError :=
  { errorType := none, message := some "bad request", status := some 400, name := "Error" }

/-- A batch where the second image always fails terminally and the others
succeed. -/
def batchDemoAttempts : String → Nat → AttemptOutcome :=
  fun p _ => if p = "img2.png" then AttemptOutcome.err terminalDemoError
             else AttemptOutcome.ok (some "data")

/-! ## ImageProcessor: layout arithmetic of the three merge modes. -/

/-- The metadata of a loaded image: pixel width and height. -/
structure ImgMeta where
  width : Nat
  height : Nat
deriving DecidableEq

/-- One composite operation: the left and top offset of an image. -/
structure Placement where
  left : Nat
  top : Nat
deriving DecidableEq

/-- The dimensions of the created canvas. -/
structure Canvas where
  width : Nat
  height : Nat
deriving DecidableEq

/-- A computed layout plan: the canvas plus the placements, in image order. -/
structure Layout where
  canvas : Canvas
  placements : List Placement
deriving DecidableEq

/-- The model of Math.max over a mapped list.  JavaScript yields minus
infinity on an empty list; the merge functions only apply it to nonempty
lists, where the fold below agrees with it. -/
def listMax (l : List Nat) : Nat := l.foldl Nat.max 0

/-- The indexed reduce accumulating value plus margin for every index
after the first, the shape shared by all the width and height sums of the
processor: reduce of sum + f x + (i greater than zero then margin else 0). -/
def reduceSumMargin {α : Type} (f : α → Nat) (margin : Nat) :
    List α → Nat → Nat → Nat
  | [], _, sum => sum
  | x :: rest, i, sum =>
    reduceSumMargin f margin rest (i + 1) (sum + f x + (if 0 < i then margin else 0))

/-- The total length of a line of items separated by margins, per the source
reduce starting at index 0 with accumulator 0. -/
def sumWithMargin {α : Type} (f : α → Nat) (margin : Nat) (l : List α) : Nat :=
  reduceSumMargin f margin l 0 0

/-- mergeImagesHorizontally without row wrapping: total width is the margin
separated sum of widths, height is the maximum height; each image is placed
at the prefix width (plus a margin when not first) and vertically centered. -/
def hPlainLayout (images : List ImgMeta) (margin : Nat) : Layout :=
  let totalWidth := sumWithMargin ImgMeta.width margin images
  let maxHeight := listMax (images.map ImgMeta.height)
  { canvas := { width := totalWidth, height := maxHeight }
    placements := images.enum.map (fun p =>
      let x0 := sumWithMargin ImgMeta.width margin (images.take p.1)
      let x := if 0 < p.1 then x0 + margin else x0
      { left := x, top := (maxHeight - p.2.height) / 2 }) }

/-- mergeImagesVertically: total height is the margin separated sum of
heights, width is the maximum width; each image is placed at the prefix
height (plus a margin when not first) and horizontally centered. -/
def mergeImagesVertically (images : List ImgMeta) (margin : Nat) : Layout :=
  let totalHeight := sumWithMargin ImgMeta.height margin images
  let maxWidth := listMax (images.map ImgMeta.width)
  { canvas := { width := maxWidth, height := totalHeight }
    placements := images.enum.map (fun p =>
      let y0 := sumWithMargin ImgMeta.height margin (images.take p.1)
      let y := if 0 < p.1 then y0 + margin else y0
      { left := (maxWidth - p.2.width) / 2, top := y }) }

/-- The rows of the grid mode: ceil(n over k) slices of at most k images,
slice r covering indices r times k up to its end (the source slice with the
clamped end index). -/
def imagesByRow (images : List ImgMeta) (maxImagesPerRow : Nat) : List (List ImgMeta) :=
  let rows := (images.length + maxImagesPerRow - 1) / maxImagesPerRow
  (List.range rows).map (fun rowIndex =>
    ((images.drop (rowIndex * maxImagesPerRow)).take maxImagesPerRow))

/-- The margin separated width of one row. -/
def rowWidth (margin : Nat) (row : List ImgMeta) : Nat :=
  sumWithMargin ImgMeta.width margin row

/-- The maximum image height within one row. -/
def rowMaxHeight (row : List ImgMeta) : Nat :=
  listMax (row.map ImgMeta.height)

/-- The inner loop of the grid composite: place the images of one row left to
right, adding a margin before every image but the first and centering each
image vertically within the row height. -/
def gridRowPlace (margin rowHeight currentY : Nat) :
    List ImgMeta → Nat → Nat → List Placement
  | [], _, _ => []
  | img :: rest, colIndex, currentX =>
    let cx := if 0 < colIndex then currentX + margin else currentX
    { left := cx, top := currentY + (rowHeight - img.height) / 2 }
      :: gridRowPlace margin rowHeight currentY rest (colIndex + 1) (cx + img.width)

/-- The outer loop of the grid composite: stack the rows top to bottom,
adding a margin after every row but the last. -/
def gridRowsPlace (margin : Nat) : List (List ImgMeta) → Nat → List Placement
  | [], _ => []
  | row :: rest, currentY =>
    gridRowPlace margin (rowMaxHeight row) currentY row 0 0
      ++ gridRowsPlace margin rest
           (currentY + rowMaxHeight row + (if rest.isEmpty then 0 else margin))

/-- mergeImagesInGrid: the row partition, the per row dimensions, the overall
canvas (maximum row width, margin separated sum of row heights), and the
composite placements.  The source defaults an absent or zero maxImagesPerRow
to 3 (the JavaScript or-else on a falsy value). -/
def mergeImagesInGrid (images : List ImgMeta) (margin : Nat)
    (maxImagesPerRow : Option Nat) : Layout :=
  let k := match maxImagesPerRow with
    | some k => if k = 0 then 3 else k
    | none => 3
  let rowsL := imagesByRow images k
  let totalWidth := listMax (rowsL.map (rowWidth margin))
  let totalHeight := sumWithMargin (fun r => rowMaxHeight r) margin rowsL
  { canvas := { width := totalWidth, height := totalHeight }
    placements := gridRowsPlace margin rowsL 0 }

/-- mergeImagesHorizontally: dispatch to the grid when maxImagesPerRow is set
and positive (the JavaScript truthiness guard), else the plain row layout. -/
def mergeImagesHorizontally (images : List ImgMeta) (margin : Nat)
    (maxImagesPerRow : Option Nat) : Layout :=
  match maxImagesPerRow with
  | some k => if 0 < k then mergeImagesInGrid images margin (some k) else hPlainLayout images margin
  | none => hPlainLayout images margin

/-! ### Layout descriptions following the wording of the specification,
used as the comparison side of the refinement claims. -/

/-- Spec description of one grid row: images placed left to right starting at
a given x, adjacent images separated by exactly the margin, each vertically
centered within the row height below the row top. -/
def specRowPlacements (margin rowH rowTop : Nat) : Nat → List ImgMeta → List Placement
  | _, [] => []
  | x, img :: rest =>
    { left := x, top := rowTop + (rowH - img.height) / 2 }
      :: specRowPlacements margin rowH rowTop (x + img.width + margin) rest

/-- Spec description of the grid: rows stacked top to bottom, adjacent rows
separated by exactly the margin, each row starting at x zero. -/
def specGridPlacements (margin : Nat) : Nat → List (List ImgMeta) → List Placement
  | _, [] => []
  | top, row :: rest =>
    specRowPlacements margin (rowMaxHeight row) top 0 row
      ++ specGridPlacements margin (top + rowMaxHeight row + margin) rest

/-- Sum of a mapped list, the plain sum used by the spec formulas. -/
def sumMap {α : Type} (f : α → Nat) (l : List α) : Nat := (l.map f).sum

/-! ## ImageProcessor.mergeImagesInFolder: directory handling, file
filtering, decoding, encoding and output placement, over an abstract file
system. -/

/-- The caller facing result record. -/
structure MergedImageResult where
  success : Bool
  outputPath : Option String
  error : Option String
deriving DecidableEq

/-- The two output formats of the options record. -/
inductive OutputFormat where
  | jpeg : OutputFormat
  | png : OutputFormat
deriving DecidableEq

/-- The file name extension text of a format (the string interpolated into
the output path). -/
def OutputFormat.extText : OutputFormat → String
  | OutputFormat.jpeg => "jpeg"
  | OutputFormat.png => "png"

/-- The merge direction of the options record. -/
inductive Direction where
  | horizontal : Direction
  | vertical : Direction
deriving DecidableEq

/-- The options record of mergeImagesInFolder. -/
structure MergeOptions where
  direction : Direction
  margin : Nat
  maxImagesPerRow : Option Nat
  outputFormat : OutputFormat
  quality : Nat

/-- The abstract file system read by the merge: directory existence, the
directory listing, and the decode of each image file (sharp metadata and
buffer), which either yields the image or fails with a message. -/
structure FileSys where
  dirExists : String → Bool
  readdir : String → List String
  decodeImage : String → Except String ImgMeta

/-- Node path.extname: the suffix from the last dot of the name, empty when
there is no dot or the only dot is the leading character. -/
def extnameChars (cs : List Char) : List Char :=
  let rev := cs.reverse
  let p := rev.span (fun c => ¬ (c = '.'))
  match p.2 with
  | [] => []
  | [_] => []
  | _ => '.' :: p.1.reverse

/-- The image file filter of the merge: extension jpg, jpeg or png after
lowercasing. -/
def isImageFile (file : String) : Bool :=
  let ext := String.mk ((extnameChars file.data).map Char.toLower)
  ext = ".jpg" || ext = ".jpeg" || ext = ".png"

/-- Simplified path.join for the paths built by the merge. -/
def joinPath (a b : String) : String := a ++ "/" ++ b

/-- Load all images; Promise.all rejects with the first failing decode,
modelled as the first failure in list order. -/
def loadImages (decode : String → Except String ImgMeta) :
    List String → Except String (List ImgMeta)
  | [] => Except.ok []
  | f :: fs =>
    match decode f with
    | Except.error e => Except.error e
    | Except.ok img =>
      match loadImages decode fs with
      | Except.error e => Except.error e
      | Except.ok rest => Except.ok (img :: rest)

/-- The sharp encoder applied by every merge path: all three merge functions
end the pipeline with the jpeg encoder at the requested quality, whatever the
requested output format. -/
def pipelineEncoding (_options : MergeOptions) : OutputFormat := OutputFormat.jpeg

/-- The file produced by toFile: its path and the encoding and quality the
pipeline applied. -/
structure EncodedFile where
  path : String
  encoding : OutputFormat
  quality : Nat
  layout : Layout
deriving DecidableEq

/-- The full observable effect of one mergeImagesInFolder call: the returned
result, the composite file written (none on failure), and the output
directory created when absent. -/
structure MergeRun where
  result : MergedImageResult
  written : Option EncodedFile
  createdDir : Option String
deriving DecidableEq

/-- mergeImagesInFolder: directory check, filtering, loading, layout
dispatch, output directory handling and file write; every failure is caught
and returned as an unsuccessful result, so no exception escapes. -/
def mergeImagesInFolder (fsy : FileSys) (folderPath outputFileName : String)
    (options : MergeOptions) : MergeRun :=
  if ¬ fsy.dirExists folderPath then
    { result := { success := false, outputPath := none,
                  error := some ("Directory not found: " ++ folderPath) }
      written := none, createdDir := none }
  else
    let imageFiles := ((fsy.readdir folderPath).filter isImageFile).map (joinPath folderPath)
    if imageFiles.isEmpty then
      { result := { success := false, outputPath := none,
                    error := some ("No image files found in directory: " ++ folderPath) }
        written := none, createdDir := none }
    else
      match loadImages fsy.decodeImage imageFiles with
      | Except.error msg =>
        { result := { success := false, outputPath := none, error := some msg }
          written := none, createdDir := none }
      | Except.ok images =>
        let layout := match options.direction with
          | Direction.horizontal => mergeImagesHorizontally images options.margin options.maxImagesPerRow
          | Direction.vertical => mergeImagesVertically images options.margin
        let outputDir := joinPath folderPath "merged"
        let outputPath := joinPath outputDir (outputFileName ++ "." ++ options.outputFormat.extText)
        { result := { success := true, outputPath := some outputPath, error := none }
          written := some { path := outputPath, encoding := pipelineEncoding options,
                            quality := options.quality, layout := layout }
          createdDir := if fsy.dirExists outputDir then none else some outputDir }

/-! ## Rectangle geometry for the layout invariants. -/

/-- A placed rectangle: offset and size. -/
structure Rect where
  x : Nat
  y : Nat
  w : Nat
  h : Nat
deriving DecidableEq

/-- The rectangles of a layout: each placement paired with its image size. -/
def layoutRects (ps : List Placement) (images : List ImgMeta) : List Rect :=
  List.zipWith (fun (p : Placement) (img : ImgMeta) =>
    { x := p.left, y := p.top, w := img.width, h := img.height }) ps images

/-- Pixel membership of a rectangle (half open on the far sides). -/
def ptIn (r : Rect) (px py : Nat) : Prop :=
  r.x ≤ px ∧ px < r.x + r.w ∧ r.y ≤ py ∧ py < r.y + r.h

/-- Two rectangles share no pixel. -/
def RectsDisjoint (a b : Rect) : Prop :=
  ∀ px py, ¬ (ptIn a px py ∧ ptIn b px py)

/-- A rectangle lies inside the canvas. -/
def InCanvas (c : Canvas) (r : Rect) : Prop :=
  r.x + r.w ≤ c.width ∧ r.y + r.h ≤ c.height

/-- The canvas is tight: some rectangle touches each of the four sides, so no
smaller canvas anchored at the origin covers all placements. -/
def TightCanvas (c : Canvas) (rs : List Rect) : Prop :=
  (∃ r ∈ rs, r.x = 0) ∧ (∃ r ∈ rs, r.y = 0) ∧
    (∃ r ∈ rs, r.x + r.w = c.width) ∧ (∃ r ∈ rs, r.y + r.h = c.height)

/-- The layout invariant of the spec: pairwise disjoint placements, all
inside the canvas, and the canvas is the minimal bounding box. -/
def GoodLayout (c : Canvas) (rs : List Rect) : Prop :=
  rs.Pairwise RectsDisjoint ∧ (∀ r ∈ rs, InCanvas c r) ∧ TightCanvas c rs

/-! ### Stack and rectangle descriptions following the wording of the
specification, used as the comparison side of the layout claims. -/

/-- Spec description of the vertical stack: images top to bottom from a given
top, adjacent images separated by exactly the margin, each horizontally
centered in the canvas width. -/
def specVStack (margin maxW : Nat) : Nat → List ImgMeta → List Placement
  | _, [] => []
  | y, img :: rest =>
    { left := (maxW - img.width) / 2, top := y }
      :: specVStack margin maxW (y + img.height + margin) rest

/-- Spec description of the unbounded horizontal row: images left to right
from a given left, adjacent images separated by exactly the margin, each
vertically centered in the canvas height. -/
def specHStack (margin maxH : Nat) : Nat → List ImgMeta → List Placement
  | _, [] => []
  | x, img :: rest =>
    { left := x, top := (maxH - img.height) / 2 }
      :: specHStack margin maxH (x + img.width + margin) rest

/-- The rectangles of the spec vertical stack. -/
def specVRects (margin maxW : Nat) : Nat → List ImgMeta → List Rect
  | _, [] => []
  | y, img :: rest =>
    { x := (maxW - img.width) / 2, y := y, w := img.width, h := img.height }
      :: specVRects margin maxW (y + img.height + margin) rest

/-- The rectangles of the spec horizontal row. -/
def specHRects (margin maxH : Nat) : Nat → List ImgMeta → List Rect
  | _, [] => []
  | x, img :: rest =>
    { x := x, y := (maxH - img.height) / 2, w := img.width, h := img.height }
      :: specHRects margin maxH (x + img.width + margin) rest

/-- The rectangles of one spec grid row. -/
def specRowRects (margin rowH rowTop : Nat) : Nat → List ImgMeta → List Rect
  | _, [] => []
  | x, img :: rest =>
    { x := x, y := rowTop + (rowH - img.height) / 2, w := img.width, h := img.height }
      :: specRowRects margin rowH rowTop (x + img.width + margin) rest

/-- The rectangles of the spec grid. -/
def specGridRects (margin : Nat) : Nat → List (List ImgMeta) → List Rect
  | _, [] => []
  | top, row :: rest =>
    specRowRects margin (rowMaxHeight row) top 0 row
      ++ specGridRects margin (top + rowMaxHeight row + margin) rest

/-- The spec formula for the extent of a margin separated line of items. -/
def lineLen {α : Type} (f : α → Nat) (m : Nat) (l : List α) : Nat :=
  sumMap f l + m * (l.length - 1)

/-- Three images of distinct sizes used by the concrete layout witnesses. -/
def demoImages : List ImgMeta :=
  [{ width := 2, height := 3 }, { width := 4, height := 1 }, { width := 5, height := 2 }]

/-! ### Concrete file systems used by the test properties of the claims. -/

/-- A file system where no directory exists. -/
def missingDirFS : FileSys :=
  { dirExists := fun _ => false, readdir := fun _ => [],
    decodeImage := fun _ => Except.error "unused" }

/-- A file system whose directory holds no qualifying image file. -/
def noImagesFS : FileSys :=
  { dirExists := fun p => p == "shots", readdir := fun _ => ["notes.txt", "raw.gif"],
    decodeImage := fun _ => Except.error "unused" }

/-- A file system where the second image fails to decode. -/
def badDecodeFS : FileSys :=
  { dirExists := fun p => p == "shots", readdir := fun _ => ["a.png", "b.jpg"],
    decodeImage := fun p =>
      if p == "shots/a.png" then Except.ok { width := 2, height := 3 }
      else Except.error "Input buffer contains unsupported image format" }

/-- A file system with a single decodable image and no merged directory yet. -/
def oneImageFS : FileSys :=
  { dirExists := fun p => p == "shots", readdir := fun _ => ["a.png"],
    decodeImage := fun _ => Except.ok { width := 2, height := 3 } }

/-- Options requesting a png composite from a vertical merge. -/
def pngOptions : MergeOptions :=
  { direction := Direction.vertical, margin := 10, maxImagesPerRow := none,
    outputFormat := OutputFormat.png, quality := 90 }

/-! ## Theorems.  First the loop unfolding equation and helper lemmas. -/

/-- The loop satisfies its natural unfolding equation, with no budget in
sight: the fuel of analyzeLoopAux is an implementation device only. -/
theorem analyzeLoop_unfold (cfg : LoaderConfig) (attempts : Nat → AttemptOutcome)
    (retries : Nat) :
    analyzeLoop cfg attempts retries =
      match attempts retries with
      | AttemptOutcome.ok content => ([], CallOutcome.ret (normalizeContent content))
      | AttemptOutcome.err e =>
        if isQuotaError e then
          ([], CallOutcome.thrownNew "QuotaExceededError" quotaExceededMessage)
        else if isRetryableStatus e = true ∧ retries < cfg.maxRetries then
          ((cfg.initialRetryDelay * 2 ^ ((retries + 1) - 1)) :: (analyzeLoop cfg attempts (retries + 1)).1,
            (analyzeLoop cfg attempts (retries + 1)).2)
        else
          ([], CallOutcome.rethrown e) := by
  conv_lhs => unfold analyzeLoop analyzeLoopAux
  unfold analyzeLoop
  cases h : attempts retries with
  | ok content => rfl
  | err e =>
    by_cases hq : isQuotaError e
    · simp [hq]
    · by_cases hr : isRetryableStatus e = true ∧ retries < cfg.maxRetries
      · have hb : cfg.maxRetries - retries = Nat.succ (cfg.maxRetries - (retries + 1)) := by
          omega
        simp only [hq, hr, if_true, if_false, hb]
      · cases hb : cfg.maxRetries - retries with
        | zero => simp [hq, hr]
        | succ b => simp [hq, hr]

/-- Every delay issued from a given retry count follows the exponential
backoff schedule: the j th delay (counting from zero) of the run starting at
a retry count equals initialRetryDelay times two to the (count plus j). -/
theorem analyzeLoop_delays (cfg : LoaderConfig) (attempts : Nat → AttemptOutcome) :
    ∀ budget retries j d,
      (analyzeLoopAux cfg attempts retries budget).1[j]? = some d →
      d = cfg.initialRetryDelay * 2 ^ (retries + j) := by
  intro budget
  induction budget with
  | zero =>
    intro retries j d h
    unfold analyzeLoopAux at h
    cases ha : attempts retries with
    | ok content => rw [ha] at h; simp at h
    | err e =>
      rw [ha] at h
      by_cases hq : isQuotaError e
      · simp [hq] at h
      · by_cases hr : isRetryableStatus e = true ∧ retries < cfg.maxRetries
        · simp [hq, hr] at h
        · simp [hq, hr] at h
  | succ b ih =>
    intro retries j d h
    unfold analyzeLoopAux at h
    cases ha : attempts retries with
    | ok content => rw [ha] at h; simp at h
    | err e =>
      rw [ha] at h
      by_cases hq : isQuotaError e
      · simp [hq] at h
      · by_cases hr : isRetryableStatus e = true ∧ retries < cfg.maxRetries
        · simp only [hq, hr, if_true, if_false, Bool.false_eq_true] at h
          cases j with
          | zero =>
            simp at h
            simpa using h.symm
          | succ j2 =>
            simp at h
            have h2 := ih (retries + 1) j2 d h
            have h3 : retries + 1 + j2 = retries + (j2 + 1) := by omega
            rw [h3] at h2
            exact h2
        · simp [hq, hr] at h

/-- Claim C5: when the remote service signals quota exhaustion on the first
attempt, analyzeImage fails immediately: no delay is issued, no retry is
consumed, and the raised error is the newly constructed one tagged
QuotaExceededError, never the rethrow of a generic error. -/
theorem analyzeImage_quota_short_circuit (cfg : LoaderConfig)
    (attempts : Nat → AttemptOutcome) (e : ApiError)
    (h0 : attempts 0 = AttemptOutcome.err e) (hq : isQuotaError e = true) :
    analyzeImage cfg attempts = ([], CallOutcome.thrownNew "QuotaExceededError" quotaExceededMessage)
    ∧ ∀ e2, (analyzeImage cfg attempts).2 ≠ CallOutcome.rethrown e2 := by
  have h : analyzeImage cfg attempts =
      ([], CallOutcome.thrownNew "QuotaExceededError" quotaExceededMessage) := by
    unfold analyzeImage
    rw [analyzeLoop_unfold, h0]
    simp [hq]
  refine ⟨h, ?_⟩
  rw [h]
  intro e2
  simp

/-- Witness for C5 at a concrete quota failing input. -/
theorem analyzeImage_quota_short_circuit_witness :
    analyzeImage defaultLoaderConfig quotaAttempts =
      ([], CallOutcome.thrownNew "QuotaExceededError" quotaExceededMessage) :=
  (analyzeImage_quota_short_circuit defaultLoaderConfig quotaAttempts
    quotaRetryableError rfl (by decide)).1

/-- Claim C10: the quota classification takes precedence over the retryable
status check: an error that is classified as a quota error is rethrown
immediately as the QuotaExceededError with the fixed billing message even
when its status is retryable, and the original message is not propagated
verbatim (unless it happened to equal the fixed message). -/
theorem analyzeImage_quota_precedence (cfg : LoaderConfig)
    (attempts : Nat → AttemptOutcome) (e : ApiError)
    (h0 : attempts 0 = AttemptOutcome.err e)
    (hq : isQuotaError e = true) (_hs : isRetryableStatus e = true) :
    analyzeImage cfg attempts = ([], CallOutcome.thrownNew "QuotaExceededError" quotaExceededMessage)
    ∧ (∀ m, e.message = some m → m ≠ quotaExceededMessage →
        (analyzeImage cfg attempts).2 ≠ CallOutcome.thrownNew "QuotaExceededError" m) := by
  have h : analyzeImage cfg attempts =
      ([], CallOutcome.thrownNew "QuotaExceededError" quotaExceededMessage) := by
    unfold analyzeImage
    rw [analyzeLoop_unfold, h0]
    simp [hq]
  refine ⟨h, ?_⟩
  intro m _ hm
  rw [h]
  intro hcontra
  exact hm (by injection hcontra with h1 h2; exact h2.symm)

/-- Witness for C10 at a concrete input whose status is 503 and whose error
is a quota error. -/
theorem analyzeImage_quota_precedence_witness :
    analyzeImage defaultLoaderConfig quotaAttempts =
      ([], CallOutcome.thrownNew "QuotaExceededError" quotaExceededMessage) :=
  (analyzeImage_quota_precedence defaultLoaderConfig quotaAttempts
    quotaRetryableError rfl (by decide) (by decide)).1

/-- Claim C6: content normalization.  The fenced json example parses to the
object, the non json example is returned unchanged as raw text, and in
general a nonempty content either parses to a JSON value or is returned
unchanged: a parse failure never fails the call. -/
theorem analyzeImage_content_normalization :
    normalizeContent (some "```json\n\x7b\"a\":1\x7d\n```") =
      NormResult.parsedJson (Json.jobj [("a", Json.jnum 1)])
    ∧ normalizeContent (some "not json") = NormResult.rawText "not json"
    ∧ ∀ c : String, c ≠ "" →
        (∃ j, normalizeContent (some c) = NormResult.parsedJson j) ∨
          normalizeContent (some c) = NormResult.rawText c := by
  refine ⟨rfl, rfl, ?_⟩
  intro c hc
  simp only [normalizeContent]
  rw [if_neg hc]
  split
  · split
    · exact Or.inl ⟨_, rfl⟩
    · exact Or.inr rfl
  · split
    · split
      · split
        · exact Or.inl ⟨_, rfl⟩
        · exact Or.inr rfl
      · exact Or.inr rfl
    · split
      · exact Or.inl ⟨_, rfl⟩
      · exact Or.inr rfl

/-- Witness exercising the general normalization property of C6 at a
concrete unparsable input. -/
theorem analyzeImage_content_normalization_witness :
    (∃ j, normalizeContent (some "hello world") = NormResult.parsedJson j) ∨
      normalizeContent (some "hello world") = NormResult.rawText "hello world" :=
  analyzeImage_content_normalization.2.2 "hello world" (by decide)

/-- Claim C7: the batch helper returns one entry per input path in input
order; a successful item carries its data and no error, a failed item
carries an error message and no data, and a failure never aborts the
remaining items.  The concrete three image scenario with a terminal failure
in the middle produces exactly the expected three entries. -/
theorem analyzeMultipleImages_isolation :
    (∀ (cfg : LoaderConfig) (attemptsFor : String → Nat → AttemptOutcome)
        (paths : List String),
      (analyzeMultipleImages cfg attemptsFor paths).length = paths.length
      ∧ ∀ (i : Nat) (p : String), paths[i]? = some p →
          ∃ entry : BatchEntry, (analyzeMultipleImages cfg attemptsFor paths)[i]? = some entry
            ∧ entry.path = p
            ∧ ((∃ v, (analyzeImage cfg (attemptsFor p)).2 = CallOutcome.ret v ∧
                  entry.data = some v ∧ entry.error = none)
               ∨ ((∀ v, (analyzeImage cfg (attemptsFor p)).2 ≠ CallOutcome.ret v) ∧
                  entry.data = none ∧ ∃ msg, entry.error = some msg)))
    ∧ analyzeMultipleImages defaultLoaderConfig batchDemoAttempts
        ["img1.png", "img2.png", "img3.png"] =
      [{ path := "img1.png", data := some (NormResult.rawText "data"), error := none },
       { path := "img2.png", data := none, error := some "bad request" },
       { path := "img3.png", data := some (NormResult.rawText "data"), error := none }] := by
  constructor
  · intro cfg attemptsFor paths
    constructor
    · simp [analyzeMultipleImages]
    · intro i p hp
      cases h : (analyzeImage cfg (attemptsFor p)).2 with
      | ret v =>
        refine ⟨{ path := p, data := some v, error := none }, ?_, rfl,
          Or.inl ⟨v, rfl, rfl, rfl⟩⟩
        simp [analyzeMultipleImages, hp, h]
      | thrownNew nm msg =>
        refine ⟨{ path := p, data := none,
                  error := some (errorMessageOrDefault (some msg)) }, ?_, rfl,
          Or.inr ⟨fun v hv => CallOutcome.noConfusion hv, rfl, _, rfl⟩⟩
        simp [analyzeMultipleImages, hp, h]
      | rethrown e =>
        refine ⟨{ path := p, data := none,
                  error := some (errorMessageOrDefault e.message) }, ?_, rfl,
          Or.inr ⟨fun v hv => CallOutcome.noConfusion hv, rfl, _, rfl⟩⟩
        simp [analyzeMultipleImages, hp, h]
  · rfl

/-- Witness exercising the per index part of C7 at a concrete batch. -/
theorem analyzeMultipleImages_isolation_witness :
    ∃ entry : BatchEntry, (analyzeMultipleImages defaultLoaderConfig batchDemoAttempts
        ["img1.png", "img2.png", "img3.png"])[1]? = some entry
      ∧ entry.path = "img2.png"
      ∧ ((∃ v, (analyzeImage defaultLoaderConfig (batchDemoAttempts "img2.png")).2 = CallOutcome.ret v ∧
            entry.data = some v ∧ entry.error = none)
         ∨ ((∀ v, (analyzeImage defaultLoaderConfig (batchDemoAttempts "img2.png")).2 ≠ CallOutcome.ret v) ∧
            entry.data = none ∧ ∃ msg, entry.error = some msg)) :=
  ((analyzeMultipleImages_isolation.1 defaultLoaderConfig batchDemoAttempts
      ["img1.png", "img2.png", "img3.png"]).2 1 "img2.png" rfl)

/-- Claim C4 as stated is refuted: being retried is not equivalent to a
retryable status with remaining budget, because a quota classified error
with status 503 and remaining budget is not retried. -/
theorem analyzeImage_retry_iff_refuted :
    ¬ (∀ (cfg : LoaderConfig) (attempts : Nat → AttemptOutcome) (retries : Nat) (e : ApiError),
        attempts retries = AttemptOutcome.err e →
        (((e.status = some 429 ∨ e.status = some 500 ∨ e.status = some 503) ∧
            retries < cfg.maxRetries)
          ↔ (analyzeLoop cfg attempts retries).1 ≠ [])) := by
  intro hclaim
  have h := hclaim defaultLoaderConfig quotaAttempts 0 quotaRetryableError rfl
  have h2 : ((quotaRetryableError.status = some 429 ∨ quotaRetryableError.status = some 500 ∨
      quotaRetryableError.status = some 503) ∧ 0 < defaultLoaderConfig.maxRetries) := by
    refine ⟨Or.inr (Or.inr ?_), by decide⟩
    rfl
  have h3 := h.mp h2
  exact h3 (by decide)

/-- Claim C4 amended: an attempt is retried if and only if the error is not
classified as a quota error, its status is 429, 500 or 503, and the retries
already taken are strictly below maxRetries; the j th delay (zero based)
equals initialRetryDelay times 2 to the j; and in the concrete scenario that
fails with 503 twice then succeeds, exactly the delays 1000 and 2000 are
issued, the returned value is the normalized successful content, and the
total delay is at least 1000 plus 2000. -/
theorem analyzeImage_retry_characterization :
    (∀ (cfg : LoaderConfig) (attempts : Nat → AttemptOutcome) (retries : Nat) (e : ApiError),
        attempts retries = AttemptOutcome.err e →
        ((analyzeLoop cfg attempts retries).1 ≠ [] ↔
          (isQuotaError e = false ∧ isRetryableStatus e = true ∧ retries < cfg.maxRetries)))
    ∧ (∀ (cfg : LoaderConfig) (attempts : Nat → AttemptOutcome) (j d : Nat),
        (analyzeImage cfg attempts).1[j]? = some d →
        d = cfg.initialRetryDelay * 2 ^ j)
    ∧ (analyzeImage defaultLoaderConfig retryDemoAttempts).1 = [1000, 2000]
    ∧ (analyzeImage defaultLoaderConfig retryDemoAttempts).2 =
        CallOutcome.ret (NormResult.rawText "done")
    ∧ 1000 + 1000 * 2 ≤ (analyzeImage defaultLoaderConfig retryDemoAttempts).1.sum := by
  refine ⟨?_, ?_, by decide, rfl, by decide⟩
  · intro cfg attempts retries e h0
    rw [analyzeLoop_unfold, h0]
    by_cases hq : isQuotaError e
    · simp [hq]
    · by_cases hr : isRetryableStatus e = true ∧ retries < cfg.maxRetries
      · simp [hq, hr]
      · simp only [Bool.not_eq_true] at hq
        simp [hq, hr]
  · intro cfg attempts j d h
    have := analyzeLoop_delays cfg attempts (cfg.maxRetries - 0) 0 j d h
    simpa using this

/-- Witness exercising the iff of the amended C4 at a concrete retried
input. -/
theorem analyzeImage_retry_characterization_witness :
    (analyzeLoop defaultLoaderConfig retryDemoAttempts 0).1 ≠ [] ↔
      (isQuotaError retryDemoError = false ∧ isRetryableStatus retryDemoError = true ∧
        0 < defaultLoaderConfig.maxRetries) :=
  analyzeImage_retry_characterization.1 defaultLoaderConfig retryDemoAttempts 0
    retryDemoError rfl

/-- Claim C8: the failure modes of mergeImagesInFolder.  A missing source
directory yields a failure result with a descriptive message; an existing
directory with no qualifying image file yields a failure result; a failing
decode makes the whole merge fail with the underlying decode message.  In
each case nothing is written, and the function is total, so no exception
escapes. -/
theorem mergeImagesInFolder_failure_modes :
    (∀ (fsy : FileSys) (folderPath outputFileName : String) (options : MergeOptions),
      fsy.dirExists folderPath = false →
      mergeImagesInFolder fsy folderPath outputFileName options =
        { result := { success := false, outputPath := none,
                      error := some ("Directory not found: " ++ folderPath) },
          written := none, createdDir := none })
    ∧ (∀ (fsy : FileSys) (folderPath outputFileName : String) (options : MergeOptions),
      fsy.dirExists folderPath = true →
      (fsy.readdir folderPath).filter isImageFile = [] →
      mergeImagesInFolder fsy folderPath outputFileName options =
        { result := { success := false, outputPath := none,
                      error := some ("No image files found in directory: " ++ folderPath) },
          written := none, createdDir := none })
    ∧ (∀ (fsy : FileSys) (folderPath outputFileName : String) (options : MergeOptions)
        (msg : String),
      fsy.dirExists folderPath = true →
      loadImages fsy.decodeImage
        (((fsy.readdir folderPath).filter isImageFile).map (joinPath folderPath)) =
        Except.error msg →
      mergeImagesInFolder fsy folderPath outputFileName options =
        { result := { success := false, outputPath := none, error := some msg },
          written := none, createdDir := none }) := by
  refine ⟨?_, ?_, ?_⟩
  · intro fsy folderPath outputFileName options hdir
    unfold mergeImagesInFolder
    simp [hdir]
  · intro fsy folderPath outputFileName options hdir hfiles
    unfold mergeImagesInFolder
    simp [hdir, hfiles]
  · intro fsy folderPath outputFileName options msg hdir hload
    unfold mergeImagesInFolder
    have hne : ¬ (((fsy.readdir folderPath).filter isImageFile).map (joinPath folderPath)).isEmpty = true := by
      intro hempty
      rw [List.isEmpty_iff] at hempty
      rw [hempty] at hload
      exact Except.noConfusion hload
    simp only [hdir, Bool.not_true, if_neg, hne, hload]
    simp [hne, hload]

/-- Witness for C8: the three failure modes at concrete file systems (the
decode failure surfaces the message of the second file). -/
theorem mergeImagesInFolder_failure_modes_witness :
    mergeImagesInFolder missingDirFS "shots" "merged-images" pngOptions =
      { result := { success := false, outputPath := none,
                    error := some "Directory not found: shots" },
        written := none, createdDir := none }
    ∧ mergeImagesInFolder noImagesFS "shots" "merged-images" pngOptions =
      { result := { success := false, outputPath := none,
                    error := some "No image files found in directory: shots" },
        written := none, createdDir := none }
    ∧ mergeImagesInFolder badDecodeFS "shots" "merged-images" pngOptions =
      { result := { success := false, outputPath := none,
                    error := some "Input buffer contains unsupported image format" },
        written := none, createdDir := none } :=
  ⟨mergeImagesInFolder_failure_modes.1 missingDirFS "shots" "merged-images" pngOptions rfl,
   mergeImagesInFolder_failure_modes.2.1 noImagesFS "shots" "merged-images" pngOptions rfl (by decide),
   mergeImagesInFolder_failure_modes.2.2 badDecodeFS "shots" "merged-images" pngOptions
     "Input buffer contains unsupported image format" rfl rfl⟩

/-- Claim C3 is contradicted by the code on png requests: the merge writes
the composite to the merged subdirectory under the requested name and
extension and creates the directory when absent, but every merge pipeline
ends with the jpeg encoder, so a png request produces a jpeg encoded file
behind a png file name. -/
theorem mergeImagesInFolder_png_encoding_divergence :
    (mergeImagesInFolder oneImageFS "shots" "merged-images" pngOptions).result.success = true
    ∧ (mergeImagesInFolder oneImageFS "shots" "merged-images" pngOptions).result.outputPath =
        some "shots/merged/merged-images.png"
    ∧ (mergeImagesInFolder oneImageFS "shots" "merged-images" pngOptions).createdDir =
        some "shots/merged"
    ∧ (∃ f : EncodedFile,
        (mergeImagesInFolder oneImageFS "shots" "merged-images" pngOptions).written = some f
        ∧ f.path = "shots/merged/merged-images.png"
        ∧ f.quality = pngOptions.quality
        ∧ f.encoding = OutputFormat.jpeg
        ∧ f.encoding ≠ pngOptions.outputFormat) := by
  refine ⟨rfl, rfl, rfl, ⟨_, rfl, rfl, rfl, rfl, by decide⟩⟩

/-! ### Arithmetic helper lemmas for the layout development. -/

/-- Once past the first index, the indexed reduce adds a margin for every
element. -/
theorem reduceSumMargin_shift {α : Type} (f : α → Nat) (m : Nat) :
    ∀ (l : List α) (i s : Nat), 0 < i →
      reduceSumMargin f m l i s = s + sumMap f l + m * l.length := by
  intro l
  induction l with
  | nil => intro i s _; simp [reduceSumMargin, sumMap]
  | cons x xs ih =>
    intro i s hi
    unfold reduceSumMargin
    rw [if_pos hi, ih (i + 1) _ (by omega)]
    simp [sumMap, Nat.mul_succ]
    try ring

/-- The closed form of the source reduce: sum of the values plus margin times
one less than the length (also valid for the empty list over Nat). -/
theorem sumWithMargin_closed {α : Type} (f : α → Nat) (m : Nat) (l : List α) :
    sumWithMargin f m l = sumMap f l + m * (l.length - 1) := by
  cases l with
  | nil => simp [sumWithMargin, reduceSumMargin, sumMap]
  | cons x xs =>
    unfold sumWithMargin reduceSumMargin
    rw [reduceSumMargin_shift f m xs 1 _ (by omega)]
    simp [sumMap]
    try ring

/-- Any starting value bounds the fold of max from below. -/
theorem le_foldl_max : ∀ (l : List Nat) (a : Nat), a ≤ l.foldl Nat.max a := by
  intro l
  induction l with
  | nil => intro a; simp
  | cons x xs ih =>
    intro a
    calc a ≤ Nat.max a x := Nat.le_max_left a x
    _ ≤ (x :: xs).foldl Nat.max a := ih (Nat.max a x)

/-- Every member bounds the fold of max from below. -/
theorem mem_le_foldl_max : ∀ (l : List Nat) (i a : Nat), a ∈ l → a ≤ l.foldl Nat.max i := by
  intro l
  induction l with
  | nil => intro i a ha; cases ha
  | cons x xs ih =>
    intro i a ha
    rcases List.mem_cons.mp ha with h | h
    · subst h
      calc a ≤ Nat.max i a := Nat.le_max_right i a
      _ ≤ _ := le_foldl_max xs (Nat.max i a)
    · exact ih (Nat.max i x) a h

/-- Every member is at most the maximum. -/
theorem le_listMax_of_mem {l : List Nat} {a : Nat} (h : a ∈ l) : a ≤ listMax l :=
  mem_le_foldl_max l 0 a h

/-- The fold of max is the start or a member. -/
theorem foldl_max_eq_or_mem : ∀ (l : List Nat) (i : Nat),
    l.foldl Nat.max i = i ∨ l.foldl Nat.max i ∈ l := by
  intro l
  induction l with
  | nil => intro i; exact Or.inl rfl
  | cons x xs ih =>
    intro i
    have hgoal : (x :: xs).foldl Nat.max i = xs.foldl Nat.max (Nat.max i x) := rfl
    rw [hgoal]
    rcases ih (Nat.max i x) with h | h
    · rw [h]
      rcases Nat.le_total i x with hle | hle
      · exact Or.inr (by simp [Nat.max_eq_right hle])
      · exact Or.inl (Nat.max_eq_left hle)
    · exact Or.inr (List.mem_cons_of_mem x h)

/-- The maximum of a nonempty list is attained by a member. -/
theorem listMax_mem {l : List Nat} (h : l ≠ []) : listMax l ∈ l := by
  cases l with
  | nil => exact absurd rfl h
  | cons x xs =>
    rcases foldl_max_eq_or_mem (x :: xs) 0 with h2 | h2
    · unfold listMax at *
      rw [h2]
      have hx : x ≤ (x :: xs).foldl Nat.max 0 :=
        mem_le_foldl_max (x :: xs) 0 x (by simp)
      rw [h2] at hx
      have : x = 0 := Nat.le_zero.mp hx
      simp [this]
    · exact h2

/-- Index lookup through an enumerated map. -/
theorem enumMap_getElem {α β : Type} (f : Nat × α → β) (l : List α) (i : Nat) (a : α)
    (h : l[i]? = some a) : (l.enum.map f)[i]? = some (f (i, a)) := by
  rw [List.getElem?_map, List.getElem?_enum, h]
  rfl

/-! ### The vertical and horizontal layouts agree with the spec stacks. -/

/-- Lengths of the spec vertical stack. -/
theorem specVStack_length (m W : Nat) : ∀ (l : List ImgMeta) (y : Nat),
    (specVStack m W y l).length = l.length := by
  intro l
  induction l with
  | nil => intro y; rfl
  | cons x xs ih => intro y; simp [specVStack, ih]

/-- Lengths of the spec horizontal row. -/
theorem specHStack_length (m H : Nat) : ∀ (l : List ImgMeta) (x : Nat),
    (specHStack m H x l).length = l.length := by
  intro l
  induction l with
  | nil => intro x; rfl
  | cons y ys ih => intro x; simp [specHStack, ih]

/-- Index characterization of the spec vertical stack: the i th image sits at
the prefix height plus i margins below the start, horizontally centered. -/
theorem specVStack_getElem (m W : Nat) : ∀ (l : List ImgMeta) (y0 i : Nat) (img : ImgMeta),
    l[i]? = some img →
    (specVStack m W y0 l)[i]? =
      some { left := (W - img.width) / 2,
             top := y0 + sumMap ImgMeta.height (l.take i) + m * i } := by
  intro l
  induction l with
  | nil => intro y0 i img h; simp at h
  | cons x xs ih =>
    intro y0 i img h
    cases i with
    | zero =>
      simp at h
      subst h
      simp [specVStack, sumMap]
    | succ i2 =>
      simp at h
      have := ih (y0 + x.height + m) i2 img h
      simp only [specVStack, List.getElem?_cons_succ]
      rw [this]
      have harith : y0 + x.height + m + sumMap ImgMeta.height (xs.take i2) + m * i2 =
          y0 + sumMap ImgMeta.height ((x :: xs).take (i2 + 1)) + m * (i2 + 1) := by
        simp [sumMap, Nat.mul_succ]
        ring
      rw [harith]

/-- Index characterization of the spec horizontal row. -/
theorem specHStack_getElem (m H : Nat) : ∀ (l : List ImgMeta) (x0 i : Nat) (img : ImgMeta),
    l[i]? = some img →
    (specHStack m H x0 l)[i]? =
      some { left := x0 + sumMap ImgMeta.width (l.take i) + m * i,
             top := (H - img.height) / 2 } := by
  intro l
  induction l with
  | nil => intro x0 i img h; simp at h
  | cons x xs ih =>
    intro x0 i img h
    cases i with
    | zero =>
      simp at h
      subst h
      simp [specHStack, sumMap]
    | succ i2 =>
      simp at h
      have := ih (x0 + x.width + m) i2 img h
      simp only [specHStack, List.getElem?_cons_succ]
      rw [this]
      have harith : x0 + x.width + m + sumMap ImgMeta.width (xs.take i2) + m * i2 =
          x0 + sumMap ImgMeta.width ((x :: xs).take (i2 + 1)) + m * (i2 + 1) := by
        simp [sumMap, Nat.mul_succ]
        ring
      rw [harith]

/-- The placements computed by mergeImagesVertically are exactly the spec
vertical stack started at the origin. -/
theorem mergeImagesVertically_placements (images : List ImgMeta) (margin : Nat) :
    (mergeImagesVertically images margin).placements =
      specVStack margin (listMax (images.map ImgMeta.width)) 0 images := by
  apply List.ext_getElem?
  intro i
  by_cases hi : i < images.length
  · obtain ⟨img, h⟩ : ∃ img, images[i]? = some img :=
      ⟨images[i], List.getElem?_eq_getElem hi⟩
    rw [specVStack_getElem margin (listMax (images.map ImgMeta.width)) images 0 i img h]
    unfold mergeImagesVertically
    simp only
    rw [enumMap_getElem _ images i img h]
    congr 1
    simp only
    congr 1
    cases i with
    | zero => simp [sumWithMargin, reduceSumMargin, sumMap]
    | succ i2 =>
      rw [if_pos (by omega)]
      rw [sumWithMargin_closed]
      have hlen : (images.take (i2 + 1)).length = i2 + 1 := by
        rw [List.length_take]
        omega
      rw [hlen]
      have : (i2 + 1) - 1 = i2 := rfl
      rw [this]
      simp [Nat.mul_succ]
      omega
  · have h1 : (mergeImagesVertically images margin).placements[i]? = none := by
      apply List.getElem?_eq_none
      unfold mergeImagesVertically
      simp
      omega
    have h2 : (specVStack margin (listMax (images.map ImgMeta.width)) 0 images)[i]? = none := by
      apply List.getElem?_eq_none
      rw [specVStack_length]
      omega
    rw [h1, h2]

/-- The placements computed by the plain horizontal layout are exactly the
spec horizontal row started at the origin. -/
theorem hPlainLayout_placements (images : List ImgMeta) (margin : Nat) :
    (hPlainLayout images margin).placements =
      specHStack margin (listMax (images.map ImgMeta.height)) 0 images := by
  apply List.ext_getElem?
  intro i
  by_cases hi : i < images.length
  · obtain ⟨img, h⟩ : ∃ img, images[i]? = some img :=
      ⟨images[i], List.getElem?_eq_getElem hi⟩
    rw [specHStack_getElem margin (listMax (images.map ImgMeta.height)) images 0 i img h]
    unfold hPlainLayout
    simp only
    rw [enumMap_getElem _ images i img h]
    congr 1
    simp only
    congr 1
    cases i with
    | zero => simp [sumWithMargin, reduceSumMargin, sumMap]
    | succ i2 =>
      rw [if_pos (by omega)]
      rw [sumWithMargin_closed]
      have hlen : (images.take (i2 + 1)).length = i2 + 1 := by
        rw [List.length_take]
        omega
      rw [hlen]
      have : (i2 + 1) - 1 = i2 := rfl
      rw [this]
      simp [Nat.mul_succ]
      omega
  · have h1 : (hPlainLayout images margin).placements[i]? = none := by
      apply List.getElem?_eq_none
      unfold hPlainLayout
      simp
      omega
    have h2 : (specHStack margin (listMax (images.map ImgMeta.height)) 0 images)[i]? = none := by
      apply List.getElem?_eq_none
      rw [specHStack_length]
      omega
    rw [h1, h2]

/-- Claim C2: the vertical compose canvas is max width by margin separated
sum of heights, with each image top to bottom in input order at the prefix
height plus one margin per predecessor, horizontally centered by the floored
half difference; the horizontal compose without maxPerRow is the transposed
statement. -/
theorem compose_vertical_horizontal_spec (images : List ImgMeta) (margin : Nat)
    (_hne : images ≠ []) :
    ((mergeImagesVertically images margin).canvas =
        { width := listMax (images.map ImgMeta.width),
          height := sumMap ImgMeta.height images + margin * (images.length - 1) }
      ∧ ∀ (i : Nat) (img : ImgMeta), images[i]? = some img →
          (mergeImagesVertically images margin).placements[i]? =
            some { left := (listMax (images.map ImgMeta.width) - img.width) / 2,
                   top := sumMap ImgMeta.height (images.take i) + margin * i })
    ∧ ((mergeImagesHorizontally images margin none).canvas =
        { width := sumMap ImgMeta.width images + margin * (images.length - 1),
          height := listMax (images.map ImgMeta.height) }
      ∧ ∀ (i : Nat) (img : ImgMeta), images[i]? = some img →
          (mergeImagesHorizontally images margin none).placements[i]? =
            some { left := sumMap ImgMeta.width (images.take i) + margin * i,
                   top := (listMax (images.map ImgMeta.height) - img.height) / 2 }) := by
  have hH : mergeImagesHorizontally images margin none = hPlainLayout images margin := rfl
  refine ⟨⟨?_, ?_⟩, ?_, ?_⟩
  · unfold mergeImagesVertically
    simp only
    rw [sumWithMargin_closed]
  · intro i img h
    rw [mergeImagesVertically_placements]
    rw [specVStack_getElem margin _ images 0 i img h]
    simp
  · rw [hH]
    unfold hPlainLayout
    simp only
    rw [sumWithMargin_closed]
  · intro i img h
    rw [hH, hPlainLayout_placements]
    rw [specHStack_getElem margin _ images 0 i img h]
    simp

/-- Witness for C2 at the three demo images with margin 10, including one
concrete placement lookup. -/
theorem compose_vertical_horizontal_spec_witness :
    (mergeImagesVertically demoImages 10).canvas =
      { width := listMax (demoImages.map ImgMeta.width),
        height := sumMap ImgMeta.height demoImages + 10 * (demoImages.length - 1) }
    ∧ (mergeImagesVertically demoImages 10).placements[1]? =
      some { left := (listMax (demoImages.map ImgMeta.width) - 4) / 2,
             top := sumMap ImgMeta.height (demoImages.take 1) + 10 * 1 } :=
  ⟨(compose_vertical_horizontal_spec demoImages 10 (by decide)).1.1,
   (compose_vertical_horizontal_spec demoImages 10 (by decide)).1.2 1
     { width := 4, height := 1 } rfl⟩

/-! ### The grid partition and its properties. -/

/-- The ceiling division row count steps by one when one chunk is removed. -/
theorem rowsCount_succ (k n : Nat) (hk : 0 < k) (hn : 0 < n) :
    (n + k - 1) / k = ((n - k) + k - 1) / k + 1 := by
  rcases Nat.le_total k n with hkn | hkn
  · have h1 : n + k - 1 = ((n - k) + k - 1) + k := by omega
    rw [h1, Nat.add_div_right _ hk]
  · have h1 : n - k = 0 := by omega
    rw [h1]
    have h2 : (0 + k - 1) / k = 0 := Nat.div_eq_of_lt (by omega)
    rw [h2]
    exact Nat.div_eq_of_lt_le (by omega) (by omega)

/-- The grid of an empty image list has no rows. -/
theorem imagesByRow_nil (k : Nat) (hk : 0 < k) : imagesByRow [] k = [] := by
  unfold imagesByRow
  have : (List.length ([] : List ImgMeta) + k - 1) / k = 0 := by
    simp only [List.length_nil]
    exact Nat.div_eq_of_lt (by omega)
  rw [this]
  rfl

/-- Peeling the first row off the grid partition. -/
theorem imagesByRow_cons (k : Nat) (images : List ImgMeta)
    (hk : 0 < k) (hne : images ≠ []) :
    imagesByRow images k = images.take k :: imagesByRow (images.drop k) k := by
  unfold imagesByRow
  have hn : 0 < images.length := List.length_pos.mpr hne
  have hlen : (images.drop k).length = images.length - k := List.length_drop k images
  rw [hlen]
  dsimp only
  rw [rowsCount_succ k images.length hk hn]
  rw [List.range_succ_eq_map]
  simp only [List.map_cons, List.map_map]
  congr 1
  · simp
  · apply List.map_congr_left
    intro r _
    simp only [Function.comp_apply, List.drop_drop]
    rw [Nat.succ_mul, Nat.add_comm k (r * k)]

/-- The grid partition concatenates back to the image list, bounded form. -/
theorem imagesByRow_join_bounded (k : Nat) (hk : 0 < k) :
    ∀ (n : Nat) (images : List ImgMeta), images.length ≤ n →
      (imagesByRow images k).flatten = images := by
  intro n
  induction n with
  | zero =>
    intro images h
    have : images = [] := List.length_eq_zero.mp (by omega)
    subst this
    rw [imagesByRow_nil k hk]
    rfl
  | succ n ih =>
    intro images h
    by_cases hne : images = []
    · subst hne
      rw [imagesByRow_nil k hk]
      rfl
    · rw [imagesByRow_cons k images hk hne]
      simp only [List.flatten_cons]
      rw [ih (images.drop k) (by rw [List.length_drop]; have := List.length_pos.mpr hne; omega)]
      exact List.take_append_drop k images

/-- The grid partition concatenates back to the image list, preserving
input order. -/
theorem imagesByRow_join (k : Nat) (images : List ImgMeta) (hk : 0 < k) :
    (imagesByRow images k).flatten = images :=
  imagesByRow_join_bounded k hk images.length images (Nat.le_refl _)

/-- The number of rows is the ceiling of n over k. -/
theorem imagesByRow_length (k : Nat) (images : List ImgMeta) :
    (imagesByRow images k).length = (images.length + k - 1) / k := by
  unfold imagesByRow
  simp

/-- Every row of the grid partition is nonempty, has at most k images, and
every row but the last has exactly k. -/
theorem imagesByRow_shape (k : Nat) (images : List ImgMeta) (hk : 0 < k)
    (r : Nat) (row : List ImgMeta) (h : (imagesByRow images k)[r]? = some row) :
    row ≠ [] ∧ row.length ≤ k ∧
      (r + 1 < (imagesByRow images k).length → row.length = k) := by
  have hlen := imagesByRow_length k images
  have hr : r < (imagesByRow images k).length := by
    by_contra hcon
    rw [List.getElem?_eq_none (by omega)] at h
    exact Option.noConfusion h
  have hrow : row = (images.drop (r * k)).take k := by
    unfold imagesByRow at h
    rw [List.getElem?_map, List.getElem?_range (by rw [hlen] at hr; exact hr)] at h
    simpa using h.symm
  have hrows : r < (images.length + k - 1) / k := by rw [hlen] at hr; exact hr
  have hmul : (r + 1) * k ≤ ((images.length + k - 1) / k) * k :=
    Nat.mul_le_mul_right k (by omega)
  have hdivmul : ((images.length + k - 1) / k) * k ≤ images.length + k - 1 :=
    Nat.div_mul_le_self _ _
  have hexp : (r + 1) * k = r * k + k := by ring
  have hrk : r * k + k ≤ images.length + k - 1 := by omega
  have hrklt : r * k < images.length := by omega
  have hrowlen : row.length = min k (images.length - r * k) := by
    rw [hrow, List.length_take, List.length_drop]
  refine ⟨?_, ?_, ?_⟩
  · intro hempty
    rw [hempty] at hrowlen
    simp at hrowlen
    omega
  · rw [hrowlen]; omega
  · intro hnotlast
    rw [hlen] at hnotlast
    have hmul2 : (r + 2) * k ≤ ((images.length + k - 1) / k) * k :=
      Nat.mul_le_mul_right k (by omega)
    have hexp2 : (r + 2) * k = r * k + 2 * k := by ring
    rw [hrowlen]
    omega

/-- The inner grid loop past the first column produces the spec row shifted
by one margin. -/
theorem gridRowPlace_shift (m rh cy : Nat) :
    ∀ (rest : List ImgMeta) (j cx : Nat),
      gridRowPlace m rh cy rest (j + 1) cx = specRowPlacements m rh cy (cx + m) rest := by
  intro rest
  induction rest with
  | nil => intro j cx; rfl
  | cons img rest2 ih =>
    intro j cx
    unfold gridRowPlace specRowPlacements
    rw [if_pos (by omega)]
    dsimp only
    rw [ih (j + 1) (cx + m + img.width)]

/-- The inner grid loop from the first column produces the spec row. -/
theorem gridRowPlace_eq (m rh cy : Nat) (row : List ImgMeta) :
    gridRowPlace m rh cy row 0 0 = specRowPlacements m rh cy 0 row := by
  cases row with
  | nil => rfl
  | cons img rest =>
    unfold gridRowPlace specRowPlacements
    rw [if_neg (by omega)]
    dsimp only
    rw [gridRowPlace_shift m rh cy rest 0 (0 + img.width)]

/-- The outer grid loop produces the spec grid stacking. -/
theorem gridRowsPlace_eq (m : Nat) :
    ∀ (rowsL : List (List ImgMeta)) (top : Nat),
      gridRowsPlace m rowsL top = specGridPlacements m top rowsL := by
  intro rowsL
  induction rowsL with
  | nil => intro top; rfl
  | cons row rest ih =>
    intro top
    unfold gridRowsPlace specGridPlacements
    rw [gridRowPlace_eq]
    cases rest with
    | nil => simp [specGridPlacements, gridRowsPlace]
    | cons row2 rest2 =>
      rw [ih]
      simp

/-- Claim C1: grid compose partitions the images into ceil(n over k) rows of
at most k images each (all but the last exactly k, order preserved), the
canvas width is the maximum margin separated row width, the canvas height is
the margin separated sum of the per row maximum heights, and the placements
are exactly the spec grid: rows stacked top to bottom and images left to
right within a row, vertically centered in the row. -/
theorem grid_compose_spec (images : List ImgMeta) (margin k : Nat)
    (_hne : images ≠ []) (hk : 0 < k) :
    (imagesByRow images k).flatten = images
    ∧ (imagesByRow images k).length = (images.length + k - 1) / k
    ∧ (∀ (r : Nat) (row : List ImgMeta), (imagesByRow images k)[r]? = some row →
        row ≠ [] ∧ row.length ≤ k ∧
          (r + 1 < (imagesByRow images k).length → row.length = k))
    ∧ (mergeImagesInGrid images margin (some k)).canvas.width =
        listMax ((imagesByRow images k).map (lineLen ImgMeta.width margin))
    ∧ (mergeImagesInGrid images margin (some k)).canvas.height =
        sumMap rowMaxHeight (imagesByRow images k) +
          margin * ((imagesByRow images k).length - 1)
    ∧ (mergeImagesInGrid images margin (some k)).placements =
        specGridPlacements margin 0 (imagesByRow images k) := by
  have hkk : (if k = 0 then 3 else k) = k := if_neg (by omega)
  refine ⟨imagesByRow_join k images hk, imagesByRow_length k images,
    fun r row h => imagesByRow_shape k images hk r row h, ?_, ?_, ?_⟩
  · unfold mergeImagesInGrid
    simp only [hkk]
    congr 1
    apply List.map_congr_left
    intro row _
    rw [rowWidth, sumWithMargin_closed, lineLen]
  · unfold mergeImagesInGrid
    simp only [hkk]
    rw [sumWithMargin_closed]
  · unfold mergeImagesInGrid
    simp only [hkk]
    exact gridRowsPlace_eq margin (imagesByRow images k) 0

/-- Witness for C1 at the three demo images with two images per row. -/
theorem grid_compose_spec_witness :
    (imagesByRow demoImages 2).flatten = demoImages
    ∧ (mergeImagesInGrid demoImages 10 (some 2)).placements =
        specGridPlacements 10 0 (imagesByRow demoImages 2) :=
  ⟨(grid_compose_spec demoImages 10 2 (by decide) (by decide)).1,
   (grid_compose_spec demoImages 10 2 (by decide) (by decide)).2.2.2.2.2⟩

/-! ### Rectangle geometry helper lemmas. -/

/-- Horizontal separation implies disjointness. -/
theorem rectsDisjoint_of_sepX (a b : Rect) (h : a.x + a.w ≤ b.x) : RectsDisjoint a b := by
  intro px py hc
  rcases hc with ⟨⟨_, haxw, _, _⟩, ⟨hbx, _, _, _⟩⟩
  omega

/-- Vertical separation implies disjointness. -/
theorem rectsDisjoint_of_sepY (a b : Rect) (h : a.y + a.h ≤ b.y) : RectsDisjoint a b := by
  intro px py hc
  rcases hc with ⟨⟨_, _, _, hayh⟩, ⟨_, _, hby, _⟩⟩
  omega

/-- A centered item stays within the extent it is centered in. -/
theorem centered_le (w W : Nat) (h : w ≤ W) : (W - w) / 2 + w ≤ W := by
  have := Nat.div_le_self (W - w) 2
  omega

/-- The rectangles of the spec vertical stack zipped from its placements. -/
theorem layoutRects_specVStack (m W : Nat) : ∀ (l : List ImgMeta) (y : Nat),
    layoutRects (specVStack m W y l) l = specVRects m W y l := by
  intro l
  induction l with
  | nil => intro y; rfl
  | cons img rest ih =>
    intro y
    simp [layoutRects, specVStack, specVRects, List.zipWith_cons_cons]
    exact ih (y + img.height + m)

/-- The rectangles of the spec horizontal row zipped from its placements. -/
theorem layoutRects_specHStack (m H : Nat) : ∀ (l : List ImgMeta) (x : Nat),
    layoutRects (specHStack m H x l) l = specHRects m H x l := by
  intro l
  induction l with
  | nil => intro x; rfl
  | cons img rest ih =>
    intro x
    simp [layoutRects, specHStack, specHRects, List.zipWith_cons_cons]
    exact ih (x + img.width + m)

/-- The rectangles of one spec grid row zipped from its placements. -/
theorem layoutRects_specRow (m rh rt : Nat) : ∀ (l : List ImgMeta) (x : Nat),
    layoutRects (specRowPlacements m rh rt x l) l = specRowRects m rh rt x l := by
  intro l
  induction l with
  | nil => intro x; rfl
  | cons img rest ih =>
    intro x
    simp [layoutRects, specRowPlacements, specRowRects, List.zipWith_cons_cons]
    exact ih (x + img.width + m)

/-- Length of one spec grid row. -/
theorem specRowPlacements_length (m rh rt : Nat) : ∀ (l : List ImgMeta) (x : Nat),
    (specRowPlacements m rh rt x l).length = l.length := by
  intro l
  induction l with
  | nil => intro x; rfl
  | cons img rest ih => intro x; simp [specRowPlacements, ih]

/-- Zipping distributes over append when the first lengths agree. -/
theorem layoutRects_append (ps1 ps2 : List Placement) (l1 l2 : List ImgMeta)
    (h : ps1.length = l1.length) :
    layoutRects (ps1 ++ ps2) (l1 ++ l2) = layoutRects ps1 l1 ++ layoutRects ps2 l2 := by
  unfold layoutRects
  exact List.zipWith_append _ _ _ _ _ h

/-- The rectangles of the spec grid zipped from its placements and the
flattened rows. -/
theorem layoutRects_specGrid (m : Nat) : ∀ (rowsL : List (List ImgMeta)) (t : Nat),
    layoutRects (specGridPlacements m t rowsL) rowsL.flatten = specGridRects m t rowsL := by
  intro rowsL
  induction rowsL with
  | nil => intro t; rfl
  | cons row rest ih =>
    intro t
    simp only [specGridPlacements, specGridRects, List.flatten_cons]
    rw [layoutRects_append _ _ _ _ (specRowPlacements_length m (rowMaxHeight row) t row 0)]
    rw [layoutRects_specRow, ih]

/-- The spec line extent of the empty list. -/
theorem lineLen_nil {α : Type} (f : α → Nat) (m : Nat) : lineLen f m [] = 0 := by
  simp [lineLen, sumMap]

/-- The spec line extent of a single item. -/
theorem lineLen_single {α : Type} (f : α → Nat) (m : Nat) (x : α) :
    lineLen f m [x] = f x := by
  simp [lineLen, sumMap]

/-- The spec line extent peels one item and one margin at a time. -/
theorem lineLen_cons_cons {α : Type} (f : α → Nat) (m : Nat) (x y : α) (l : List α) :
    lineLen f m (x :: y :: l) = f x + m + lineLen f m (y :: l) := by
  simp [lineLen, sumMap, Nat.mul_succ]
  try ring

/-! ### Geometry of the spec vertical stack. -/

/-- Every rectangle of the stack lies at or below the start. -/
theorem specVRects_y_lb (m W : Nat) : ∀ (l : List ImgMeta) (y : Nat),
    ∀ r ∈ specVRects m W y l, y ≤ r.y := by
  intro l
  induction l with
  | nil => intro y r hr; cases hr
  | cons img rest ih =>
    intro y r hr
    rcases List.mem_cons.mp hr with hr | hr
    · subst hr; exact Nat.le_refl _
    · have := ih (y + img.height + m) r hr
      omega

/-- Bounds of the stack: every rectangle sits between the start and the
start plus the stack extent, and within the width when every image fits. -/
theorem specVRects_bounds (m W : Nat) : ∀ (l : List ImgMeta) (y : Nat),
    (∀ img ∈ l, img.width ≤ W) →
    ∀ r ∈ specVRects m W y l,
      y ≤ r.y ∧ r.y + r.h ≤ y + lineLen ImgMeta.height m l ∧ r.x + r.w ≤ W := by
  intro l
  induction l with
  | nil => intro y _ r hr; cases hr
  | cons img rest ih =>
    intro y hW r hr
    rcases List.mem_cons.mp hr with hr | hr
    · subst hr
      refine ⟨Nat.le_refl _, ?_, centered_le img.width W (hW img (by simp))⟩
      dsimp only
      cases rest with
      | nil => simp [lineLen_single]
      | cons b bs =>
        rw [lineLen_cons_cons]
        omega
    · cases rest with
      | nil => cases hr
      | cons b bs =>
        have ihres := ih (y + img.height + m)
          (fun i hi => hW i (List.mem_cons_of_mem img hi)) r hr
        rw [lineLen_cons_cons]
        exact ⟨by omega, by omega, ihres.2.2⟩

/-- The stack rectangles are pairwise disjoint. -/
theorem specVRects_pairwise (m W : Nat) : ∀ (l : List ImgMeta) (y : Nat),
    (specVRects m W y l).Pairwise RectsDisjoint := by
  intro l
  induction l with
  | nil => intro y; exact List.Pairwise.nil
  | cons img rest ih =>
    intro y
    refine List.Pairwise.cons ?_ (ih (y + img.height + m))
    intro b hb
    apply rectsDisjoint_of_sepY
    have := specVRects_y_lb m W rest (y + img.height + m) b hb
    simp only
    omega

/-- Some rectangle of a nonempty stack touches the stack bottom. -/
theorem specVRects_bottom (m W : Nat) : ∀ (l : List ImgMeta) (y : Nat), l ≠ [] →
    ∃ r ∈ specVRects m W y l, r.y + r.h = y + lineLen ImgMeta.height m l := by
  intro l
  induction l with
  | nil => intro y h; exact absurd rfl h
  | cons img rest ih =>
    intro y _
    cases rest with
    | nil =>
      refine ⟨{ x := (W - img.width) / 2, y := y, w := img.width, h := img.height },
        by simp [specVRects], ?_⟩
      dsimp only
      simp [lineLen_single]
    | cons b bs =>
      obtain ⟨r, hr, hbot⟩ := ih (y + img.height + m) (by simp)
      refine ⟨r, List.mem_cons_of_mem _ hr, ?_⟩
      rw [lineLen_cons_cons]
      omega

/-- Every image of the list owns a rectangle of the stack with its size and
its centered horizontal offset. -/
theorem specVRects_mem_img (m W : Nat) : ∀ (l : List ImgMeta) (y : Nat) (img : ImgMeta),
    img ∈ l →
    ∃ r ∈ specVRects m W y l, r.x = (W - img.width) / 2 ∧ r.w = img.width := by
  intro l
  induction l with
  | nil => intro y img h; cases h
  | cons a rest ih =>
    intro y img h
    rcases List.mem_cons.mp h with h | h
    · subst h
      exact ⟨{ x := (W - img.width) / 2, y := y, w := img.width, h := img.height },
        by simp [specVRects], rfl, rfl⟩
    · obtain ⟨r, hr, hx, hw⟩ := ih (y + a.height + m) img h
      exact ⟨r, List.mem_cons_of_mem _ hr, hx, hw⟩

/-- The first rectangle of a nonempty stack touches the stack top. -/
theorem specVRects_head (m W y : Nat) (img : ImgMeta) (rest : List ImgMeta) :
    ∃ r ∈ specVRects m W y (img :: rest), r.y = y :=
  ⟨{ x := (W - img.width) / 2, y := y, w := img.width, h := img.height },
    by simp [specVRects], rfl⟩

/-! ### Geometry of the spec horizontal row. -/

/-- Every rectangle of the row lies at or right of the start. -/
theorem specHRects_x_lb (m H : Nat) : ∀ (l : List ImgMeta) (x : Nat),
    ∀ r ∈ specHRects m H x l, x ≤ r.x := by
  intro l
  induction l with
  | nil => intro x r hr; cases hr
  | cons img rest ih =>
    intro x r hr
    rcases List.mem_cons.mp hr with hr | hr
    · subst hr; exact Nat.le_refl _
    · have := ih (x + img.width + m) r hr
      omega

/-- Bounds of the row: every rectangle sits between the start and the start
plus the row extent, and within the height when every image fits. -/
theorem specHRects_bounds (m H : Nat) : ∀ (l : List ImgMeta) (x : Nat),
    (∀ img ∈ l, img.height ≤ H) →
    ∀ r ∈ specHRects m H x l,
      x ≤ r.x ∧ r.x + r.w ≤ x + lineLen ImgMeta.width m l ∧ r.y + r.h ≤ H := by
  intro l
  induction l with
  | nil => intro x _ r hr; cases hr
  | cons img rest ih =>
    intro x hH r hr
    rcases List.mem_cons.mp hr with hr | hr
    · subst hr
      refine ⟨Nat.le_refl _, ?_, centered_le img.height H (hH img (by simp))⟩
      dsimp only
      cases rest with
      | nil => simp [lineLen_single]
      | cons b bs =>
        rw [lineLen_cons_cons]
        omega
    · cases rest with
      | nil => cases hr
      | cons b bs =>
        have ihres := ih (x + img.width + m)
          (fun i hi => hH i (List.mem_cons_of_mem img hi)) r hr
        rw [lineLen_cons_cons]
        exact ⟨by omega, by omega, ihres.2.2⟩

/-- The row rectangles are pairwise disjoint. -/
theorem specHRects_pairwise (m H : Nat) : ∀ (l : List ImgMeta) (x : Nat),
    (specHRects m H x l).Pairwise RectsDisjoint := by
  intro l
  induction l with
  | nil => intro x; exact List.Pairwise.nil
  | cons img rest ih =>
    intro x
    refine List.Pairwise.cons ?_ (ih (x + img.width + m))
    intro b hb
    apply rectsDisjoint_of_sepX
    have := specHRects_x_lb m H rest (x + img.width + m) b hb
    simp only
    omega

/-- Some rectangle of a nonempty row touches the row right edge. -/
theorem specHRects_right (m H : Nat) : ∀ (l : List ImgMeta) (x : Nat), l ≠ [] →
    ∃ r ∈ specHRects m H x l, r.x + r.w = x + lineLen ImgMeta.width m l := by
  intro l
  induction l with
  | nil => intro x h; exact absurd rfl h
  | cons img rest ih =>
    intro x _
    cases rest with
    | nil =>
      refine ⟨{ x := x, y := (H - img.height) / 2, w := img.width, h := img.height },
        by simp [specHRects], ?_⟩
      dsimp only
      simp [lineLen_single]
    | cons b bs =>
      obtain ⟨r, hr, hright⟩ := ih (x + img.width + m) (by simp)
      refine ⟨r, List.mem_cons_of_mem _ hr, ?_⟩
      rw [lineLen_cons_cons]
      omega

/-- Every image of the list owns a rectangle of the row with its size and
its centered vertical offset. -/
theorem specHRects_mem_img (m H : Nat) : ∀ (l : List ImgMeta) (x : Nat) (img : ImgMeta),
    img ∈ l →
    ∃ r ∈ specHRects m H x l, r.y = (H - img.height) / 2 ∧ r.h = img.height := by
  intro l
  induction l with
  | nil => intro x img h; cases h
  | cons a rest ih =>
    intro x img h
    rcases List.mem_cons.mp h with h | h
    · subst h
      exact ⟨{ x := x, y := (H - img.height) / 2, w := img.width, h := img.height },
        by simp [specHRects], rfl, rfl⟩
    · obtain ⟨r, hr, hy, hh⟩ := ih (x + a.width + m) img h
      exact ⟨r, List.mem_cons_of_mem _ hr, hy, hh⟩

/-- The first rectangle of a nonempty row touches the row left edge. -/
theorem specHRects_head (m H x : Nat) (img : ImgMeta) (rest : List ImgMeta) :
    ∃ r ∈ specHRects m H x (img :: rest), r.x = x :=
  ⟨{ x := x, y := (H - img.height) / 2, w := img.width, h := img.height },
    by simp [specHRects], rfl⟩

/-! ### The layout invariant for the vertical and horizontal modes. -/

/-- The vertical layout satisfies the full layout invariant. -/
theorem vertical_goodLayout (images : List ImgMeta) (margin : Nat) (hne : images ≠ []) :
    GoodLayout (mergeImagesVertically images margin).canvas
      (layoutRects (mergeImagesVertically images margin).placements images) := by
  have hrects : layoutRects (mergeImagesVertically images margin).placements images =
      specVRects margin (listMax (images.map ImgMeta.width)) 0 images := by
    rw [mergeImagesVertically_placements, layoutRects_specVStack]
  have hcw : (mergeImagesVertically images margin).canvas.width =
      listMax (images.map ImgMeta.width) := rfl
  have hch : (mergeImagesVertically images margin).canvas.height =
      lineLen ImgMeta.height margin images := by
    show sumWithMargin ImgMeta.height margin images = _
    rw [sumWithMargin_closed]
    rfl
  have hW : ∀ img ∈ images, img.width ≤ listMax (images.map ImgMeta.width) :=
    fun img hi => le_listMax_of_mem (List.mem_map_of_mem _ hi)
  obtain ⟨imgW, hmemW, hwW⟩ : ∃ img ∈ images,
      img.width = listMax (images.map ImgMeta.width) := by
    have hmm : listMax (images.map ImgMeta.width) ∈ images.map ImgMeta.width :=
      listMax_mem (by simpa using hne)
    obtain ⟨img, hi, he⟩ := List.mem_map.mp hmm
    exact ⟨img, hi, he⟩
  refine ⟨?_, ?_, ?_, ?_, ?_, ?_⟩
  · rw [hrects]
    exact specVRects_pairwise margin _ images 0
  · intro r hr
    rw [hrects] at hr
    have hb := specVRects_bounds margin _ images 0 hW r hr
    exact ⟨by rw [hcw]; exact hb.2.2, by rw [hch]; have := hb.2.1; omega⟩
  · rw [hrects]
    obtain ⟨r, hr, hx, _⟩ := specVRects_mem_img margin _ images 0 imgW hmemW
    refine ⟨r, hr, ?_⟩
    rw [hx, hwW]
    simp
  · rw [hrects]
    obtain ⟨img, rest, hcons⟩ : ∃ img rest, images = img :: rest := by
      cases images with
      | nil => exact absurd rfl hne
      | cons a b => exact ⟨a, b, rfl⟩
    rw [hcons]
    exact specVRects_head margin _ 0 img rest
  · rw [hrects, hcw]
    obtain ⟨r, hr, hx, hww⟩ := specVRects_mem_img margin _ images 0 imgW hmemW
    refine ⟨r, hr, ?_⟩
    rw [hx, hww, hwW]
    simp
  · rw [hrects, hch]
    obtain ⟨r, hr, hb⟩ := specVRects_bottom margin _ images 0 hne
    exact ⟨r, hr, by omega⟩

/-- The plain horizontal layout satisfies the full layout invariant. -/
theorem horizontal_goodLayout (images : List ImgMeta) (margin : Nat) (hne : images ≠ []) :
    GoodLayout (hPlainLayout images margin).canvas
      (layoutRects (hPlainLayout images margin).placements images) := by
  have hrects : layoutRects (hPlainLayout images margin).placements images =
      specHRects margin (listMax (images.map ImgMeta.height)) 0 images := by
    rw [hPlainLayout_placements, layoutRects_specHStack]
  have hch : (hPlainLayout images margin).canvas.height =
      listMax (images.map ImgMeta.height) := rfl
  have hcw : (hPlainLayout images margin).canvas.width =
      lineLen ImgMeta.width margin images := by
    show sumWithMargin ImgMeta.width margin images = _
    rw [sumWithMargin_closed]
    rfl
  have hH : ∀ img ∈ images, img.height ≤ listMax (images.map ImgMeta.height) :=
    fun img hi => le_listMax_of_mem (List.mem_map_of_mem _ hi)
  obtain ⟨imgH, hmemH, hhH⟩ : ∃ img ∈ images,
      img.height = listMax (images.map ImgMeta.height) := by
    have hmm : listMax (images.map ImgMeta.height) ∈ images.map ImgMeta.height :=
      listMax_mem (by simpa using hne)
    obtain ⟨img, hi, he⟩ := List.mem_map.mp hmm
    exact ⟨img, hi, he⟩
  refine ⟨?_, ?_, ?_, ?_, ?_, ?_⟩
  · rw [hrects]
    exact specHRects_pairwise margin _ images 0
  · intro r hr
    rw [hrects] at hr
    have hb := specHRects_bounds margin _ images 0 hH r hr
    exact ⟨by rw [hcw]; have := hb.2.1; omega, by rw [hch]; exact hb.2.2⟩
  · rw [hrects]
    obtain ⟨img, rest, hcons⟩ : ∃ img rest, images = img :: rest := by
      cases images with
      | nil => exact absurd rfl hne
      | cons a b => exact ⟨a, b, rfl⟩
    rw [hcons]
    exact specHRects_head margin _ 0 img rest
  · rw [hrects]
    obtain ⟨r, hr, hy, _⟩ := specHRects_mem_img margin _ images 0 imgH hmemH
    refine ⟨r, hr, ?_⟩
    rw [hy, hhH]
    simp
  · rw [hrects, hcw]
    obtain ⟨r, hr, hright⟩ := specHRects_right margin _ images 0 hne
    exact ⟨r, hr, by omega⟩
  · rw [hrects, hch]
    obtain ⟨r, hr, hy, hh⟩ := specHRects_mem_img margin _ images 0 imgH hmemH
    refine ⟨r, hr, ?_⟩
    rw [hy, hh, hhH]
    simp

/-! ### Geometry of one spec grid row. -/

/-- Every rectangle of a grid row lies at or right of the start. -/
theorem specRowRects_x_lb (m rh rt : Nat) : ∀ (l : List ImgMeta) (x : Nat),
    ∀ r ∈ specRowRects m rh rt x l, x ≤ r.x := by
  intro l
  induction l with
  | nil => intro x r hr; cases hr
  | cons img rest ih =>
    intro x r hr
    rcases List.mem_cons.mp hr with hr | hr
    · subst hr; exact Nat.le_refl _
    · have := ih (x + img.width + m) r hr
      omega

/-- Every rectangle of a grid row lies at or below the row top. -/
theorem specRowRects_y_lb (m rh rt : Nat) : ∀ (l : List ImgMeta) (x : Nat),
    ∀ r ∈ specRowRects m rh rt x l, rt ≤ r.y := by
  intro l
  induction l with
  | nil => intro x r hr; cases hr
  | cons img rest ih =>
    intro x r hr
    rcases List.mem_cons.mp hr with hr | hr
    · subst hr
      dsimp only
      omega
    · exact ih (x + img.width + m) r hr

/-- Bounds of a grid row: every rectangle sits between the start and the
start plus the row extent, and within the row band when every image fits. -/
theorem specRowRects_bounds (m rh rt : Nat) : ∀ (l : List ImgMeta) (x : Nat),
    (∀ img ∈ l, img.height ≤ rh) →
    ∀ r ∈ specRowRects m rh rt x l,
      x ≤ r.x ∧ r.x + r.w ≤ x + lineLen ImgMeta.width m l ∧
        rt ≤ r.y ∧ r.y + r.h ≤ rt + rh := by
  intro l
  induction l with
  | nil => intro x _ r hr; cases hr
  | cons img rest ih =>
    intro x hH r hr
    rcases List.mem_cons.mp hr with hr | hr
    · subst hr
      refine ⟨Nat.le_refl _, ?_, ?_, ?_⟩
      · dsimp only
        cases rest with
        | nil => simp [lineLen_single]
        | cons b bs =>
          rw [lineLen_cons_cons]
          omega
      · dsimp only; omega
      · dsimp only
        have := centered_le img.height rh (hH img (by simp))
        omega
    · cases rest with
      | nil => cases hr
      | cons b bs =>
        have ihres := ih (x + img.width + m)
          (fun i hi => hH i (List.mem_cons_of_mem img hi)) r hr
        rw [lineLen_cons_cons]
        exact ⟨by omega, by omega, ihres.2.2.1, ihres.2.2.2⟩

/-- The rectangles of a grid row are pairwise disjoint. -/
theorem specRowRects_pairwise (m rh rt : Nat) : ∀ (l : List ImgMeta) (x : Nat),
    (specRowRects m rh rt x l).Pairwise RectsDisjoint := by
  intro l
  induction l with
  | nil => intro x; exact List.Pairwise.nil
  | cons img rest ih =>
    intro x
    refine List.Pairwise.cons ?_ (ih (x + img.width + m))
    intro b hb
    apply rectsDisjoint_of_sepX
    have := specRowRects_x_lb m rh rt rest (x + img.width + m) b hb
    simp only
    omega

/-- Some rectangle of a nonempty grid row touches the row right edge. -/
theorem specRowRects_right (m rh rt : Nat) : ∀ (l : List ImgMeta) (x : Nat), l ≠ [] →
    ∃ r ∈ specRowRects m rh rt x l, r.x + r.w = x + lineLen ImgMeta.width m l := by
  intro l
  induction l with
  | nil => intro x h; exact absurd rfl h
  | cons img rest ih =>
    intro x _
    cases rest with
    | nil =>
      refine ⟨{ x := x, y := rt + (rh - img.height) / 2, w := img.width, h := img.height },
        by simp [specRowRects], ?_⟩
      dsimp only
      simp [lineLen_single]
    | cons b bs =>
      obtain ⟨r, hr, hright⟩ := ih (x + img.width + m) (by simp)
      refine ⟨r, List.mem_cons_of_mem _ hr, ?_⟩
      rw [lineLen_cons_cons]
      omega

/-- Every image of a grid row owns a rectangle with its size and centered
vertical offset within the row band. -/
theorem specRowRects_mem_img (m rh rt : Nat) : ∀ (l : List ImgMeta) (x : Nat)
    (img : ImgMeta), img ∈ l →
    ∃ r ∈ specRowRects m rh rt x l,
      r.y = rt + (rh - img.height) / 2 ∧ r.h = img.height := by
  intro l
  induction l with
  | nil => intro x img h; cases h
  | cons a rest ih =>
    intro x img h
    rcases List.mem_cons.mp h with h | h
    · subst h
      exact ⟨{ x := x, y := rt + (rh - img.height) / 2, w := img.width, h := img.height },
        by simp [specRowRects], rfl, rfl⟩
    · obtain ⟨r, hr, hy, hh⟩ := ih (x + a.width + m) img h
      exact ⟨r, List.mem_cons_of_mem _ hr, hy, hh⟩

/-- The first rectangle of a nonempty grid row touches the row left edge. -/
theorem specRowRects_head (m rh rt x : Nat) (img : ImgMeta) (rest : List ImgMeta) :
    ∃ r ∈ specRowRects m rh rt x (img :: rest), r.x = x :=
  ⟨{ x := x, y := rt + (rh - img.height) / 2, w := img.width, h := img.height },
    by simp [specRowRects], rfl⟩

/-! ### Geometry of the spec grid. -/

/-- Every image height within a row is bounded by the row maximum height. -/
theorem height_le_rowMaxHeight (row : List ImgMeta) :
    ∀ img ∈ row, img.height ≤ rowMaxHeight row :=
  fun _img hi => le_listMax_of_mem (List.mem_map_of_mem _ hi)

/-- Every rectangle of the grid lies at or below the grid top. -/
theorem specGridRects_y_lb (m : Nat) : ∀ (rowsL : List (List ImgMeta)) (t : Nat),
    ∀ r ∈ specGridRects m t rowsL, t ≤ r.y := by
  intro rowsL
  induction rowsL with
  | nil => intro t r hr; cases hr
  | cons row rest ih =>
    intro t r hr
    rcases List.mem_append.mp hr with hr | hr
    · exact specRowRects_y_lb m (rowMaxHeight row) t row 0 r hr
    · have := ih (t + rowMaxHeight row + m) r hr
      omega

/-- Every rectangle of the grid lies above the grid bottom. -/
theorem specGridRects_y_ub (m : Nat) : ∀ (rowsL : List (List ImgMeta)) (t : Nat),
    ∀ r ∈ specGridRects m t rowsL,
      r.y + r.h ≤ t + lineLen rowMaxHeight m rowsL := by
  intro rowsL
  induction rowsL with
  | nil => intro t r hr; cases hr
  | cons row rest ih =>
    intro t r hr
    rcases List.mem_append.mp hr with hr | hr
    · have hb := specRowRects_bounds m (rowMaxHeight row) t row 0
        (height_le_rowMaxHeight row) r hr
      cases rest with
      | nil =>
        rw [lineLen_single]
        exact hb.2.2.2
      | cons b bs =>
        rw [lineLen_cons_cons]
        have := hb.2.2.2
        omega
    · cases rest with
      | nil => cases hr
      | cons b bs =>
        have := ih (t + rowMaxHeight row + m) r hr
        rw [lineLen_cons_cons]
        omega

/-- Every rectangle of the grid lies within any width bounding all the row
extents. -/
theorem specGridRects_x_ub (m : Nat) : ∀ (rowsL : List (List ImgMeta)) (t W : Nat),
    (∀ row ∈ rowsL, lineLen ImgMeta.width m row ≤ W) →
    ∀ r ∈ specGridRects m t rowsL, r.x + r.w ≤ W := by
  intro rowsL
  induction rowsL with
  | nil => intro t W _ r hr; cases hr
  | cons row rest ih =>
    intro t W hrow r hr
    rcases List.mem_append.mp hr with hr | hr
    · have hb := specRowRects_bounds m (rowMaxHeight row) t row 0
        (height_le_rowMaxHeight row) r hr
      have := hrow row (by simp)
      have := hb.2.1
      omega
    · exact ih (t + rowMaxHeight row + m) W
        (fun rr hrr => hrow rr (List.mem_cons_of_mem row hrr)) r hr

/-- The grid rectangles are pairwise disjoint. -/
theorem specGridRects_pairwise (m : Nat) : ∀ (rowsL : List (List ImgMeta)) (t : Nat),
    (specGridRects m t rowsL).Pairwise RectsDisjoint := by
  intro rowsL
  induction rowsL with
  | nil => intro t; exact List.Pairwise.nil
  | cons row rest ih =>
    intro t
    rw [specGridRects, List.pairwise_append]
    refine ⟨specRowRects_pairwise m (rowMaxHeight row) t row 0,
      ih (t + rowMaxHeight row + m), ?_⟩
    intro a ha b hb
    apply rectsDisjoint_of_sepY
    have hub := (specRowRects_bounds m (rowMaxHeight row) t row 0
      (height_le_rowMaxHeight row) a ha).2.2.2
    have hlb := specGridRects_y_lb m rest (t + rowMaxHeight row + m) b hb
    omega

/-- Every row of the grid embeds its row rectangles into the grid
rectangles at some row top. -/
theorem specGridRects_sub (m : Nat) : ∀ (rowsL : List (List ImgMeta)) (t : Nat)
    (row : List ImgMeta), row ∈ rowsL →
    ∃ rt, ∀ r ∈ specRowRects m (rowMaxHeight row) rt 0 row,
      r ∈ specGridRects m t rowsL := by
  intro rowsL
  induction rowsL with
  | nil => intro t row h; cases h
  | cons row2 rest ih =>
    intro t row h
    rcases List.mem_cons.mp h with h | h
    · subst h
      exact ⟨t, fun r hr => List.mem_append_left _ hr⟩
    · obtain ⟨rt, hsub⟩ := ih (t + rowMaxHeight row2 + m) row h
      exact ⟨rt, fun r hr => List.mem_append_right _ (hsub r hr)⟩

/-- Some rectangle of a nonempty grid with nonempty rows touches the grid
bottom. -/
theorem specGridRects_bottom (m : Nat) : ∀ (rowsL : List (List ImgMeta)) (t : Nat),
    rowsL ≠ [] → (∀ row ∈ rowsL, row ≠ []) →
    ∃ r ∈ specGridRects m t rowsL,
      r.y + r.h = t + lineLen rowMaxHeight m rowsL := by
  intro rowsL
  induction rowsL with
  | nil => intro t h _; exact absurd rfl h
  | cons row rest ih =>
    intro t _ hrows
    cases rest with
    | nil =>
      have hrowne : row ≠ [] := hrows row (by simp)
      obtain ⟨img, himg, hh⟩ : ∃ img ∈ row, img.height = rowMaxHeight row := by
        have hmm : rowMaxHeight row ∈ row.map ImgMeta.height :=
          listMax_mem (by simpa using hrowne)
        obtain ⟨img, hi, he⟩ := List.mem_map.mp hmm
        exact ⟨img, hi, he⟩
      obtain ⟨r, hr, hy, hhh⟩ :=
        specRowRects_mem_img m (rowMaxHeight row) t row 0 img himg
      refine ⟨r, List.mem_append_left _ hr, ?_⟩
      rw [lineLen_single, hy, hhh, hh]
      simp
    | cons b bs =>
      obtain ⟨r, hr, hbot⟩ := ih (t + rowMaxHeight row + m) (by simp)
        (fun rr hrr => hrows rr (List.mem_cons_of_mem row hrr))
      refine ⟨r, List.mem_append_right _ hr, ?_⟩
      rw [lineLen_cons_cons]
      omega

/-- The grid merge in equation form: canvas from the row dimensions and
placements from the spec grid stacking. -/
theorem mergeImagesInGrid_eq (images : List ImgMeta) (margin k : Nat) (hk : 0 < k) :
    mergeImagesInGrid images margin (some k) =
      { canvas := { width := listMax ((imagesByRow images k).map (rowWidth margin)),
                    height := sumWithMargin (fun r => rowMaxHeight r) margin
                                (imagesByRow images k) },
        placements := specGridPlacements margin 0 (imagesByRow images k) } := by
  unfold mergeImagesInGrid
  simp only [if_neg (by omega : ¬ k = 0)]
  rw [gridRowsPlace_eq]

/-- The grid layout satisfies the full layout invariant. -/
theorem grid_goodLayout (images : List ImgMeta) (margin k : Nat)
    (hne : images ≠ []) (hk : 0 < k) :
    GoodLayout (mergeImagesInGrid images margin (some k)).canvas
      (layoutRects (mergeImagesInGrid images margin (some k)).placements images) := by
  have heq := mergeImagesInGrid_eq images margin k hk
  have hrects : layoutRects (mergeImagesInGrid images margin (some k)).placements images =
      specGridRects margin 0 (imagesByRow images k) := by
    rw [heq]
    have h2 := layoutRects_specGrid margin (imagesByRow images k) 0
    rw [imagesByRow_join k images hk] at h2
    exact h2
  have hcw : (mergeImagesInGrid images margin (some k)).canvas.width =
      listMax ((imagesByRow images k).map (lineLen ImgMeta.width margin)) := by
    rw [heq]
    show listMax ((imagesByRow images k).map (rowWidth margin)) = _
    congr 1
    apply List.map_congr_left
    intro row _
    rw [rowWidth, sumWithMargin_closed, lineLen]
  have hch : (mergeImagesInGrid images margin (some k)).canvas.height =
      lineLen rowMaxHeight margin (imagesByRow images k) := by
    rw [heq]
    show sumWithMargin (fun r => rowMaxHeight r) margin (imagesByRow images k) = _
    rw [sumWithMargin_closed]
    rfl
  have hrowsne : imagesByRow images k ≠ [] := by
    have hlen := imagesByRow_length k images
    have hnpos : 0 < images.length := List.length_pos.mpr hne
    have hone : 1 ≤ (images.length + k - 1) / k := (Nat.one_le_div_iff hk).mpr (by omega)
    intro hcon
    rw [hcon] at hlen
    simp at hlen
    omega
  have hrowne : ∀ row ∈ imagesByRow images k, row ≠ [] := by
    intro row hrow
    obtain ⟨i, hi⟩ := List.mem_iff_getElem?.mp hrow
    exact (imagesByRow_shape k images hk i row hi).1
  have hWb : ∀ row ∈ imagesByRow images k,
      lineLen ImgMeta.width margin row ≤
        listMax ((imagesByRow images k).map (lineLen ImgMeta.width margin)) :=
    fun _row hrow => le_listMax_of_mem (List.mem_map_of_mem _ hrow)
  obtain ⟨row0, rest, hrows⟩ : ∃ row0 rest, imagesByRow images k = row0 :: rest := by
    cases h : imagesByRow images k with
    | nil => exact absurd h hrowsne
    | cons a b => exact ⟨a, b, rfl⟩
  have hr0ne : row0 ≠ [] := hrowne row0 (by rw [hrows]; simp)
  refine ⟨?_, ?_, ?_, ?_, ?_, ?_⟩
  · rw [hrects]
    exact specGridRects_pairwise margin _ 0
  · intro r hr
    rw [hrects] at hr
    constructor
    · rw [hcw]
      exact specGridRects_x_ub margin _ 0 _ hWb r hr
    · rw [hch]
      have := specGridRects_y_ub margin _ 0 r hr
      omega
  · rw [hrects, hrows]
    obtain ⟨img, imgs, hrow0⟩ : ∃ img imgs, row0 = img :: imgs := by
      cases row0 with
      | nil => exact absurd rfl hr0ne
      | cons a b => exact ⟨a, b, rfl⟩
    subst hrow0
    obtain ⟨r, hr, hx⟩ := specRowRects_head margin (rowMaxHeight (img :: imgs)) 0 0 img imgs
    refine ⟨r, ?_, hx⟩
    simp only [specGridRects]
    exact List.mem_append_left _ hr
  · rw [hrects, hrows]
    obtain ⟨img, himg, hh⟩ : ∃ img ∈ row0, img.height = rowMaxHeight row0 := by
      have hmm : rowMaxHeight row0 ∈ row0.map ImgMeta.height :=
        listMax_mem (by simpa using hr0ne)
      obtain ⟨img, hi, he⟩ := List.mem_map.mp hmm
      exact ⟨img, hi, he⟩
    obtain ⟨r, hr, hy, hhh⟩ :=
      specRowRects_mem_img margin (rowMaxHeight row0) 0 row0 0 img himg
    refine ⟨r, ?_, ?_⟩
    · simp only [specGridRects]
      exact List.mem_append_left _ hr
    · rw [hy, hh]
      simp
  · rw [hrects, hcw]
    obtain ⟨roww, hmemw, hlw⟩ : ∃ row ∈ imagesByRow images k,
        lineLen ImgMeta.width margin row =
          listMax ((imagesByRow images k).map (lineLen ImgMeta.width margin)) := by
      have hmm : listMax ((imagesByRow images k).map (lineLen ImgMeta.width margin)) ∈
          (imagesByRow images k).map (lineLen ImgMeta.width margin) :=
        listMax_mem (by simpa using hrowsne)
      obtain ⟨row, hi, he⟩ := List.mem_map.mp hmm
      exact ⟨row, hi, he⟩
    obtain ⟨rt, hsub⟩ := specGridRects_sub margin (imagesByRow images k) 0 roww hmemw
    obtain ⟨r, hr, hright⟩ :=
      specRowRects_right margin (rowMaxHeight roww) rt roww 0 (hrowne roww hmemw)
    refine ⟨r, hsub r hr, ?_⟩
    omega
  · rw [hrects, hch]
    obtain ⟨r, hr, hbot⟩ := specGridRects_bottom margin (imagesByRow images k) 0
      hrowsne hrowne
    exact ⟨r, hr, by omega⟩

/-- Claim C9: for all three compose modes and any margin, the computed
placements paired with the image sizes are pairwise disjoint, lie inside the
canvas, and the canvas is tight: rectangles touch all four sides, so it is
the minimal bounding box of the placements (the inter image margins are
interior to it). -/
theorem layout_invariants (images : List ImgMeta) (margin : Nat) (hne : images ≠ []) :
    GoodLayout (mergeImagesVertically images margin).canvas
      (layoutRects (mergeImagesVertically images margin).placements images)
    ∧ GoodLayout (mergeImagesHorizontally images margin none).canvas
      (layoutRects (mergeImagesHorizontally images margin none).placements images)
    ∧ ∀ k : Nat, 0 < k →
        GoodLayout (mergeImagesInGrid images margin (some k)).canvas
          (layoutRects (mergeImagesInGrid images margin (some k)).placements images) :=
  ⟨vertical_goodLayout images margin hne,
   horizontal_goodLayout images margin hne,
   fun k hk => grid_goodLayout images margin k hne hk⟩

/-- Witness for C9 at the three demo images with margin 10 and two images
per row for the grid mode. -/
theorem layout_invariants_witness :
    GoodLayout (mergeImagesVertically demoImages 10).canvas
      (layoutRects (mergeImagesVertically demoImages 10).placements demoImages)
    ∧ GoodLayout (mergeImagesInGrid demoImages 10 (some 2)).canvas
      (layoutRects (mergeImagesInGrid demoImages 10 (some 2)).placements demoImages) :=
  ⟨(layout_invariants demoImages 10 (by decide)).1,
   (layout_invariants demoImages 10 (by decide)).2.2 2 (by decide)⟩

end GPTScan
